/-
Verification of the Kernel-Paging-Unit virtual memory manager.

The development shallowly embeds the kernel of `src/main.c`: the data model
(`struct Kernel`, `struct MMStruct`, `struct PageTable`, `struct PTE`) and the
four operations `proc_create_vm`, `proc_exit_vm`, `vm_read`, `vm_write`.

Modelling conventions:
- C arrays become `List`s; array reads become `List.getD` with the type's
  default value, array writes become `List.set`.
- The four runtime configuration globals (`KERNEL_SPACE_SIZE`,
  `VIRTUAL_SPACE_SIZE`, `PAGE_SIZE`, `MAX_PROCESS_NUM`) become a `Config`
  record threaded through every operation.
- C `int` values that can be negative in the source (`size` arguments,
  `PFN = -1`, `allocated_pages`, the `addr` pointer used purely as an
  integer offset) are modelled as `Int`.  Every division or modulus in the
  source is executed only after a guard has established that its operands
  are non-negative, so on those paths C (truncating) division agrees with
  natural-number division; the embedding converts to `Nat` at exactly those
  guarded points (`Int.toNat`).
- Each `return -1` site in the source is tagged with the error kind the
  specification assigns to that check (`Except VmError`); the single
  C-observable return value `-1` is recovered by `cRet` / `cRetPid`.
-/
import Mathlib

set_option maxHeartbeats 1000000

/-- Runtime configuration globals of the kernel (set once in `main`). -/
structure Config where
  KERNEL_SPACE_SIZE : Nat
  VIRTUAL_SPACE_SIZE : Nat
  PAGE_SIZE : Nat
  MAX_PROCESS_NUM : Nat
deriving DecidableEq, Repr

/-- `struct PTE`: one page-table entry (`PFN = -1`, `present = 0` initially). -/
structure PTE where
  PFN : Int
  present : Bool
deriving DecidableEq, Repr

/-- `struct MMStruct`: per-process memory descriptor.  A `NULL` page table is
`none`; `struct PageTable` is just its `ptes` array, so it is inlined as
`List PTE`. -/
structure MMStruct where
  size : Int
  page_table : Option (List PTE)
deriving DecidableEq, Repr

/-- `struct Kernel`. -/
structure Kernel where
  space : List Int
  occupied_pages : List Bool
  running : List Bool
  mm : List MMStruct
  allocated_pages : Int
deriving DecidableEq, Repr

/-- Error taxonomy of the specification; each constructor tags one distinct
`return -1` site of the source. -/
inductive VmError where
  | InvalidSize
  | OutOfKernelMemory
  | NoFreeProcessSlot
  | NotRunning
  | OutOfBounds
  | NoFreeFrame
deriving DecidableEq, Repr

/-- Default page-table entry, used as the `List.getD` fallback. -/
def dPTE : PTE := ⟨-1, false⟩

/-- Default memory descriptor (an empty slot). -/
def dMM : MMStruct := ⟨0, none⟩

/-- `KERNEL_SPACE_SIZE / PAGE_SIZE`: the number of physical frames. -/
def frameCount (cfg : Config) : Nat :=
  cfg.KERNEL_SPACE_SIZE / cfg.PAGE_SIZE

/-- `(size - 1) / PAGE_SIZE + 1`: number of pages covering `size` bytes
(the source computes this only for `size >= 1`). -/
def pagesFor (P n : Nat) : Nat := (n - 1) / P + 1

/-- Modelled from the spec: `init_kernel` / `CreateKernel` is declared in the
missing `kernel.h` and not part of `src/`; per spec section 6 it constructs
the kernel state with all frames free, no process running, empty memory
descriptors, zeroed physical space and `allocated_page_count = 0`. -/
def init_kernel (cfg : Config) : Kernel :=
  { space := List.replicate cfg.KERNEL_SPACE_SIZE 0
    occupied_pages := List.replicate (frameCount cfg) false
    running := List.replicate cfg.MAX_PROCESS_NUM false
    mm := List.replicate cfg.MAX_PROCESS_NUM dMM
    allocated_pages := 0 }

/-- First-fit scan: index of the first `false` entry (used both for the
frame scan over `occupied_pages` and the process-slot scan over `running`,
which are textually identical loops in the source). -/
def firstFree : List Bool → Option Nat
  | [] => none
  | b :: rest => if b then (firstFree rest).map (· + 1) else some 0

/-- Memory descriptor of process `pid` (`kernel->mm[pid]`). -/
def mdOf (k : Kernel) (pid : Nat) : MMStruct := k.mm.getD pid dMM

/-- Page table of process `pid` (`kernel->mm[pid].page_table->ptes`). -/
def ptOf (k : Kernel) (pid : Nat) : List PTE := (mdOf k pid).page_table.getD []

/-- Page-table entry `i` of process `pid`. -/
def pteOf (k : Kernel) (pid i : Nat) : PTE := (ptOf k pid).getD i dPTE

/-- `kernel->running[pid]` is set. -/
def IsRun (k : Kernel) (pid : Nat) : Prop := k.running.getD pid false = true

instance (k : Kernel) (pid : Nat) : Decidable (IsRun k pid) := by
  unfold IsRun; infer_instance

/-- `proc_create_vm` (src/main.c lines 115-145). -/
def proc_create_vm (cfg : Config) (k : Kernel) (size : Int) :
    Kernel × Except VmError Nat :=
  if size ≤ 0 ∨ size > (cfg.VIRTUAL_SPACE_SIZE : Int) then
    (k, .error .InvalidSize)
  else if k.allocated_pages + (pagesFor cfg.PAGE_SIZE size.toNat : Int) >
      (frameCount cfg : Int) then
    (k, .error .OutOfKernelMemory)
  else
    match firstFree k.running with
    | none => (k, .error .NoFreeProcessSlot)
    | some pid =>
      ({ k with
          allocated_pages :=
            k.allocated_pages + (pagesFor cfg.PAGE_SIZE size.toNat : Int)
          running := k.running.set pid true
          mm := k.mm.set pid
            ⟨size, some (List.replicate (pagesFor cfg.PAGE_SIZE size.toNat) dPTE)⟩ },
        .ok pid)

/-- The frame-release loop of `proc_exit_vm` (src/main.c lines 242-244):
unset `occupied_pages` at the frame of every present entry among the first
`pages` page-table slots. -/
def freeScan (pt : List PTE) (pages : Nat) (occ : List Bool) : List Bool :=
  (List.range pages).foldl
    (fun o i =>
      if (pt.getD i dPTE).present then o.set (pt.getD i dPTE).PFN.toNat false
      else o)
    occ

/-- `proc_exit_vm` (src/main.c lines 237-257). -/
def proc_exit_vm (cfg : Config) (k : Kernel) (pid : Nat) :
    Kernel × Except VmError Unit :=
  if k.running.getD pid false = false then (k, .error .NotRunning)
  else
    ({ k with
        occupied_pages := freeScan (ptOf k pid)
          (pagesFor cfg.PAGE_SIZE (mdOf k pid).size.toNat) k.occupied_pages
        mm := k.mm.set pid dMM
        allocated_pages := k.allocated_pages -
          (pagesFor cfg.PAGE_SIZE (mdOf k pid).size.toNat : Int)
        running := k.running.set pid false },
      .ok ())

/-- Lazy mapping of virtual page `i` of process `pid` (the shared body of the
read/write loops, src/main.c lines 160-174 and 204-218): if the entry is not
present, claim the first free frame; return the frame number used. -/
def mapPage (k : Kernel) (pid i : Nat) : Option (Kernel × Nat) :=
  if (pteOf k pid i).present then some (k, (pteOf k pid i).PFN.toNat)
  else
    match firstFree k.occupied_pages with
    | none => none
    | some j =>
      some
        ({ k with
            occupied_pages := k.occupied_pages.set j true
            mm := k.mm.set pid
              { mdOf k pid with
                  page_table := some ((ptOf k pid).set i ⟨(j : Int), true⟩) } },
          j)

/-- `memcpy` into a list: overwrite `dst` starting at `pos` with `src`. -/
def writeSeg (dst : List Int) (pos : Nat) : List Int → List Int
  | [] => dst
  | b :: rest => writeSeg (dst.set pos b) (pos + 1) rest

/-- `memcpy` out of a list: the `n` bytes of `src` starting at `pos`. -/
def readSeg (src : List Int) (pos n : Nat) : List Int :=
  (src.drop pos).take n

/-- The page loop of `vm_read` (src/main.c lines 159-187): `pages` is the list
of page indices `start..end`, `buf` the caller's output buffer and `curr` the
current offset into it. -/
def readLoop (cfg : Config) (pid sPg ePg so eo n : Nat) :
    List Nat → Kernel → List Int → Nat → Kernel × Except VmError (List Int)
  | [], k, buf, _ => (k, .ok buf)
  | i :: rest, k, buf, curr =>
    match mapPage k pid i with
    | none => (k, .error .NoFreeFrame)
    | some (k1, pfn) =>
      if sPg = ePg then
        readLoop cfg pid sPg ePg so eo n rest k1
          (writeSeg buf 0 (readSeg k1.space (cfg.PAGE_SIZE * pfn + so) n)) curr
      else if i = sPg then
        readLoop cfg pid sPg ePg so eo n rest k1
          (writeSeg buf 0
            (readSeg k1.space (cfg.PAGE_SIZE * pfn + so) (cfg.PAGE_SIZE - so)))
          (curr + (cfg.PAGE_SIZE - so))
      else if i = ePg then
        readLoop cfg pid sPg ePg so eo n rest k1
          (writeSeg buf curr (readSeg k1.space (cfg.PAGE_SIZE * pfn) eo)) curr
      else
        readLoop cfg pid sPg ePg so eo n rest k1
          (writeSeg buf curr (readSeg k1.space (cfg.PAGE_SIZE * pfn) cfg.PAGE_SIZE))
          (curr + cfg.PAGE_SIZE)

/-- `vm_read` (src/main.c lines 150-189).  `addr` is the pointer-typed
argument used purely as an integer offset; the result carries the caller's
buffer after the copies. -/
def vm_read (cfg : Config) (k : Kernel) (pid : Nat) (addr size : Int)
    (buf : List Int) : Kernel × Except VmError (List Int) :=
  if size ≤ 0 then (k, .error .OutOfBounds)
  else if addr < 0 ∨ addr ≥ (mdOf k pid).size then (k, .error .OutOfBounds)
  else if addr + size > (mdOf k pid).size then (k, .error .OutOfBounds)
  else
    let a := addr.toNat
    let n := size.toNat
    let sPg := a / cfg.PAGE_SIZE
    let so := a % cfg.PAGE_SIZE
    let ePg := (a + n - 1) / cfg.PAGE_SIZE
    let eo := (a + n) % cfg.PAGE_SIZE
    readLoop cfg pid sPg ePg so eo n (List.range' sPg (ePg + 1 - sPg)) k buf 0

/-- The page loop of `vm_write` (src/main.c lines 203-231): `buf` is the
caller's source buffer, fixed through the loop; `curr` the offset into it. -/
def writeLoop (cfg : Config) (pid sPg ePg so eo n : Nat) (buf : List Int) :
    List Nat → Kernel → Nat → Kernel × Except VmError Unit
  | [], k, _ => (k, .ok ())
  | i :: rest, k, curr =>
    match mapPage k pid i with
    | none => (k, .error .NoFreeFrame)
    | some (k1, pfn) =>
      if sPg = ePg then
        let sp := writeSeg k1.space (cfg.PAGE_SIZE * pfn + so) (buf.take n)
        writeLoop cfg pid sPg ePg so eo n buf rest { k1 with space := sp } curr
      else if i = sPg then
        let sp := writeSeg k1.space (cfg.PAGE_SIZE * pfn + so)
          (buf.take (cfg.PAGE_SIZE - so))
        writeLoop cfg pid sPg ePg so eo n buf rest { k1 with space := sp }
          (curr + (cfg.PAGE_SIZE - so))
      else if i = ePg then
        let sp := writeSeg k1.space (cfg.PAGE_SIZE * pfn) ((buf.drop curr).take eo)
        writeLoop cfg pid sPg ePg so eo n buf rest { k1 with space := sp } curr
      else
        let sp := writeSeg k1.space (cfg.PAGE_SIZE * pfn)
          ((buf.drop curr).take cfg.PAGE_SIZE)
        writeLoop cfg pid sPg ePg so eo n buf rest { k1 with space := sp }
          (curr + cfg.PAGE_SIZE)

/-- `vm_write` (src/main.c lines 194-233). -/
def vm_write (cfg : Config) (k : Kernel) (pid : Nat) (addr size : Int)
    (buf : List Int) : Kernel × Except VmError Unit :=
  if size ≤ 0 then (k, .error .OutOfBounds)
  else if addr < 0 ∨ addr ≥ (mdOf k pid).size then (k, .error .OutOfBounds)
  else if addr + size > (mdOf k pid).size then (k, .error .OutOfBounds)
  else
    let a := addr.toNat
    let n := size.toNat
    let sPg := a / cfg.PAGE_SIZE
    let so := a % cfg.PAGE_SIZE
    let ePg := (a + n - 1) / cfg.PAGE_SIZE
    let eo := (a + n) % cfg.PAGE_SIZE
    writeLoop cfg pid sPg ePg so eo n buf (List.range' sPg (ePg + 1 - sPg)) k 0

/-- The C-observable return value of `proc_create_vm`: the pid on success,
`-1` on any failure. -/
def cRetPid : Except VmError Nat → Int
  | .ok p => (p : Int)
  | .error _ => -1

/-- The C-observable return value of the other operations: `0` on success,
`-1` on any failure. -/
def cRet {α : Type} : Except VmError α → Int
  | .ok _ => 0
  | .error _ => -1

def cntTrue : List Bool → Nat
  | [] => 0
  | true :: rest => cntTrue rest + 1
  | false :: rest => cntTrue rest


/-- Number of `present` entries among the first `n` page-table slots. -/
def presCnt (pt : List PTE) : Nat → Nat
  | 0 => 0
  | n + 1 => presCnt pt n + (if (pt.getD n dPTE).present then 1 else 0)

/-- Sum of `f 0 + ... + f (n-1)`. -/
def sumUpTo (f : Nat → Nat) : Nat → Nat
  | 0 => 0
  | n + 1 => sumUpTo f n + f n

/-- Total number of `present` page-table entries across process slots. -/
def mappedCount (cfg : Config) (k : Kernel) : Nat :=
  sumUpTo (fun p => presCnt (ptOf k p) (ptOf k p).length) cfg.MAX_PROCESS_NUM

/-- Total pages reserved by running processes
(`sum of ceil(size/PAGE_SIZE)` over running slots). -/
def sumPagesNat (cfg : Config) (k : Kernel) : Nat :=
  sumUpTo
    (fun p => if k.running.getD p false then
        pagesFor cfg.PAGE_SIZE (mdOf k p).size.toNat
      else 0)
    cfg.MAX_PROCESS_NUM

/-- Page-table entry `i` of running process `pid` is present and maps
physical frame `f`. -/
def MapsTo (k : Kernel) (pid i f : Nat) : Prop :=
  IsRun k pid ∧ i < (ptOf k pid).length ∧ (pteOf k pid i).present = true ∧
    (pteOf k pid i).PFN = (f : Int)

/-- The inductive well-formedness invariant of kernel states. -/
structure KInv (cfg : Config) (k : Kernel) : Prop where
  occ_len : k.occupied_pages.length = frameCount cfg
  run_len : k.running.length = cfg.MAX_PROCESS_NUM
  mm_len : k.mm.length = cfg.MAX_PROCESS_NUM
  not_run : ∀ p, k.running.getD p false = false → mdOf k p = dMM
  run_pt : ∀ p, IsRun k p →
    1 ≤ (mdOf k p).size ∧ (mdOf k p).size ≤ (cfg.VIRTUAL_SPACE_SIZE : Int) ∧
    ∃ pt, (mdOf k p).page_table = some pt ∧
      pt.length = pagesFor cfg.PAGE_SIZE (mdOf k p).size.toNat
  pfn_lt : ∀ p i, i < (ptOf k p).length → (pteOf k p i).present = true →
    ∃ f, f < frameCount cfg ∧ (pteOf k p i).PFN = (f : Int)
  occ_maps : ∀ f, f < frameCount cfg →
    (k.occupied_pages.getD f false = true ↔ ∃ p i, MapsTo k p i f)
  excl : ∀ f p i p' i', MapsTo k p i f → MapsTo k p' i' f → p = p' ∧ i = i'
  alloc_sum : k.allocated_pages = (sumPagesNat cfg k : Int)
  alloc_le : k.allocated_pages ≤ (frameCount cfg : Int)
  cnt_eq : cntTrue k.occupied_pages = mappedCount cfg k

/-- One API call (any of the four kernel operations, with any arguments),
viewed as a transition on kernel states. -/
inductive Step (cfg : Config) : Kernel → Kernel → Prop where
  | create (k : Kernel) (size : Int) :
      Step cfg k (proc_create_vm cfg k size).1
  | exit (k : Kernel) (pid : Nat) :
      Step cfg k (proc_exit_vm cfg k pid).1
  | read (k : Kernel) (pid : Nat) (addr len : Int) (buf : List Int) :
      Step cfg k (vm_read cfg k pid addr len buf).1
  | write (k : Kernel) (pid : Nat) (addr len : Int) (buf : List Int) :
      Step cfg k (vm_write cfg k pid addr len buf).1

/-- Kernel states reachable from the initial state by any call sequence. -/
inductive Reachable (cfg : Config) : Kernel → Prop where
  | init : Reachable cfg (init_kernel cfg)
  | step {k k' : Kernel} : Reachable cfg k → Step cfg k k' → Reachable cfg k'

/-- A transition by `proc_create_vm` or `proc_exit_vm` only. -/
inductive StepCE (cfg : Config) : Kernel → Kernel → Prop where
  | create (k : Kernel) (size : Int) :
      StepCE cfg k (proc_create_vm cfg k size).1
  | exit (k : Kernel) (pid : Nat) :
      StepCE cfg k (proc_exit_vm cfg k pid).1

/-- Kernel states reachable from the initial state using only process
creation and exit. -/
inductive ReachableCE (cfg : Config) : Kernel → Prop where
  | init : ReachableCE cfg (init_kernel cfg)
  | step {k k' : Kernel} : ReachableCE cfg k → StepCE cfg k k' → ReachableCE cfg k'

/-- The kernel-state skeleton shared by the `vm_read` and `vm_write` page
loops: map each page in turn, stopping at the first allocation failure.
The boolean records whether the whole list was processed. -/
def mapLoop (pid : Nat) : List Nat → Kernel → Kernel × Bool
  | [], k => (k, true)
  | i :: rest, k =>
    match mapPage k pid i with
    | none => (k, false)
    | some (k1, _) => mapLoop pid rest k1

/-- Two kernel states that agree on everything except (possibly) the
physical space contents. -/
def EqExceptSpace (k k' : Kernel) : Prop :=
  k.occupied_pages = k'.occupied_pages ∧ k.running = k'.running ∧
  k.mm = k'.mm ∧ k.allocated_pages = k'.allocated_pages

/-- State evolution along the read/write page loops: running flags,
page counts, descriptor sizes and page-table lengths are unchanged, and
established mappings and frame occupations are never revoked (the source
only ever flips an entry to present and a frame to occupied). -/
def Extends (k k' : Kernel) : Prop :=
  k'.running = k.running ∧ k'.allocated_pages = k.allocated_pages ∧
  (∀ p, (mdOf k' p).size = (mdOf k p).size) ∧
  (∀ p, (ptOf k' p).length = (ptOf k p).length) ∧
  (∀ p ii, (pteOf k p ii).present = true → pteOf k' p ii = pteOf k p ii) ∧
  (∀ f, k.occupied_pages.getD f false = true →
    k'.occupied_pages.getD f false = true) ∧
  k'.occupied_pages.length = k.occupied_pages.length

instance {α : Type} [DecidableEq α] : DecidableEq (Except VmError α)
  | .error e, .error e' =>
    if h : e = e' then isTrue (by rw [h]) else
      isFalse (by intro hh; injection hh; contradiction)
  | .error _, .ok _ => isFalse (fun hh => Except.noConfusion hh)
  | .ok _, .error _ => isFalse (fun hh => Except.noConfusion hh)
  | .ok v, .ok v' =>
    if h : v = v' then isTrue (by rw [h]) else
      isFalse (by intro hh; injection hh; contradiction)

/-- A small concrete configuration used to exercise the operations:
64 bytes of kernel space, 32 bytes of virtual space per process, 8-byte
pages (hence 8 physical frames) and 2 process slots. -/
def cW : Config := ⟨64, 32, 8, 2⟩

/-- The initial kernel state for `cW`. -/
def kW0 : Kernel := init_kernel cW

/-- State after creating one process (pid 0) of 16 bytes (2 pages). -/
def kW1 : Kernel := (proc_create_vm cW kW0 16).1

/-- State after additionally writing the full range `[0, 16)` of pid 0. -/
def kW2 : Kernel := (vm_write cW kW1 0 0 16 (List.replicate 16 7)).1

/-- State with both process slots of `cW` occupied. -/
def kWfull : Kernel := (proc_create_vm cW (proc_create_vm cW kW0 8).1 8).1

/-- State after creating a process of 8 bytes (pid 0) and exiting it. -/
def kWexit : Kernel := (proc_exit_vm cW (proc_create_vm cW kW0 8).1 0).1

/-! ## Generic list helpers -/

theorem getD_set_self {α : Type} (l : List α) (i : Nat) (a d : α)
    (h : i < l.length) : (l.set i a).getD i d = a := by
  rw [List.getD_eq_getElem?_getD, List.getElem?_set_self h]
  rfl

theorem getD_set_ne {α : Type} (l : List α) {i j : Nat} (a d : α)
    (h : i ≠ j) : (l.set i a).getD j d = l.getD j d := by
  rw [List.getD_eq_getElem?_getD, List.getElem?_set_ne h,
    ← List.getD_eq_getElem?_getD]

theorem getD_replicate {α : Type} {n i : Nat} (a : α) (h : i < n) :
    (List.replicate n a).getD i a = a := by
  rw [List.getD_eq_getElem?_getD, List.getElem?_replicate, if_pos h]
  rfl

theorem getD_replicate' {α : Type} (n i : Nat) (a d : α) :
    (List.replicate n a).getD i d = if i < n then a else d := by
  rw [List.getD_eq_getElem?_getD, List.getElem?_replicate]
  by_cases h : i < n <;> simp [h]

/-! ## `firstFree` (the first-fit scan) -/

theorem firstFree_some {l : List Bool} {j : Nat} (h : firstFree l = some j) :
    j < l.length ∧ l.getD j false = false ∧ ∀ i < j, l.getD i false = true := by
  induction l generalizing j with
  | nil => simp [firstFree] at h
  | cons b rest ih =>
    by_cases hb : b
    · subst hb
      simp only [firstFree, if_pos rfl] at h
      match hj : firstFree rest with
      | none => rw [hj] at h; simp [Option.map] at h
      | some j' =>
        rw [hj] at h
        simp only [Option.map] at h
        have hjj : j = j' + 1 := by
          cases h; rfl
        subst hjj
        obtain ⟨h1, h2, h3⟩ := ih hj
        refine ⟨by simpa using h1, by simpa using h2, ?_⟩
        intro i hi
        cases i with
        | zero => rfl
        | succ i' =>
          have := h3 i' (by omega)
          simpa using this
    · simp only [firstFree, if_neg hb] at h
      have hjz : j = 0 := by cases h; rfl
      subst hjz
      refine ⟨by simp, by simpa using (Bool.not_eq_true b).mp hb, ?_⟩
      intro i hi
      omega

theorem firstFree_none {l : List Bool} (h : firstFree l = none) :
    ∀ i < l.length, l.getD i false = true := by
  induction l with
  | nil => intro i hi; simp at hi
  | cons b rest ih =>
    by_cases hb : b
    · subst hb
      simp only [firstFree, if_pos rfl] at h
      intro i hi
      cases i with
      | zero => rfl
      | succ i' =>
        have hr : firstFree rest = none := by
          match hj : firstFree rest with
          | none => rfl
          | some j' => rw [hj] at h; simp [Option.map] at h
        have := ih hr i' (by simpa using hi)
        simpa using this
    · simp [firstFree, hb] at h

/-! ## Counting `true` entries of a boolean list -/

theorem cntTrue_le_length (l : List Bool) : cntTrue l ≤ l.length := by
  induction l with
  | nil => simp [cntTrue]
  | cons b rest ih =>
    cases b <;> simp [cntTrue] <;> omega

theorem cntTrue_replicate_false (n : Nat) :
    cntTrue (List.replicate n false) = 0 := by
  induction n with
  | zero => rfl
  | succ m ih => simpa [List.replicate, cntTrue] using ih

theorem cntTrue_set_true {l : List Bool} {j : Nat} (hj : j < l.length)
    (hf : l.getD j false = false) :
    cntTrue (l.set j true) = cntTrue l + 1 := by
  induction l generalizing j with
  | nil => simp at hj
  | cons b rest ih =>
    cases j with
    | zero =>
      have hb : b = false := by simpa using hf
      subst hb
      simp [cntTrue, List.set]
    | succ j' =>
      have := ih (j := j') (by simpa using hj) (by simpa using hf)
      cases b <;> simp [cntTrue, List.set] <;> omega

theorem cntTrue_set_false {l : List Bool} {j : Nat} (hj : j < l.length)
    (ht : l.getD j false = true) :
    cntTrue l = cntTrue (l.set j false) + 1 := by
  induction l generalizing j with
  | nil => simp at hj
  | cons b rest ih =>
    cases j with
    | zero =>
      have hb : b = true := by simpa using ht
      subst hb
      simp [cntTrue, List.set]
    | succ j' =>
      have := ih (j := j') (by simpa using hj) (by simpa using ht)
      cases b <;> simp [cntTrue, List.set] <;> omega

/-- A list with fewer `true`s than entries has a free (`false`) slot, and
the first-fit scan finds one. -/
theorem firstFree_of_cntTrue_lt {l : List Bool} (h : cntTrue l < l.length) :
    ∃ j, firstFree l = some j := by
  induction l with
  | nil => simp at h
  | cons b rest ih =>
    by_cases hb : b
    · subst hb
      have : cntTrue rest < rest.length := by
        simp only [cntTrue, List.length_cons] at h
        omega
      obtain ⟨j, hj⟩ := ih this
      exact ⟨j + 1, by simp [firstFree, hj, Option.map]⟩
    · have hb' : b = false := Bool.not_eq_true b |>.mp hb
      subst hb'
      exact ⟨0, by simp [firstFree]⟩

/-! ## `presCnt` -/

theorem presCnt_le (pt : List PTE) (n : Nat) : presCnt pt n ≤ n := by
  induction n with
  | zero => simp [presCnt]
  | succ m ih =>
    simp only [presCnt]
    by_cases h : (pt.getD m dPTE).present = true
    · rw [if_pos h]; omega
    · rw [if_neg h]; omega

theorem presCnt_lt {pt : List PTE} {i0 n : Nat} (hi : i0 < n)
    (hnp : (pt.getD i0 dPTE).present = false) : presCnt pt n < n := by
  induction n with
  | zero => omega
  | succ m ih =>
    simp only [presCnt]
    by_cases hm : i0 = m
    · subst hm
      rw [hnp]
      have h1 := presCnt_le pt i0
      simp only [Bool.false_eq_true, if_false]
      omega
    · have h1 := ih (by omega)
      by_cases h : (pt.getD m dPTE).present = true
      · rw [if_pos h]; omega
      · rw [if_neg h]; omega

theorem presCnt_congr {pt pt' : List PTE} {n : Nat}
    (h : ∀ j < n, pt.getD j dPTE = pt'.getD j dPTE) :
    presCnt pt n = presCnt pt' n := by
  induction n with
  | zero => rfl
  | succ m ih =>
    simp only [presCnt]
    rw [ih (fun j hj => h j (by omega)), h m (by omega)]

theorem presCnt_set {pt : List PTE} {i : Nat} (a : PTE) {n : Nat}
    (hin : i < n) (hlen : i < pt.length) :
    presCnt (pt.set i a) n + (if (pt.getD i dPTE).present then 1 else 0) =
      presCnt pt n + (if a.present then 1 else 0) := by
  induction n with
  | zero => omega
  | succ m ih =>
    by_cases hm : i = m
    · subst hm
      simp only [presCnt]
      rw [getD_set_self _ _ _ _ hlen]
      have h1 : presCnt (pt.set i a) i = presCnt pt i := by
        apply presCnt_congr
        intro j hj
        exact getD_set_ne _ _ _ (by omega)
      omega
    · have h1 := ih (by omega)
      simp only [presCnt]
      rw [getD_set_ne _ _ _ (by omega)]
      omega

theorem presCnt_of_all_not_present {pt : List PTE} {n : Nat}
    (h : ∀ j < n, (pt.getD j dPTE).present = false) : presCnt pt n = 0 := by
  induction n with
  | zero => rfl
  | succ m ih =>
    simp only [presCnt]
    rw [h m (by omega), ih (fun j hj => h j (by omega))]
    simp

theorem presCnt_nil (n : Nat) : presCnt [] n = 0 := by
  apply presCnt_of_all_not_present
  intro j hj
  rfl

theorem presCnt_replicate (m n : Nat) :
    presCnt (List.replicate m dPTE) n = 0 := by
  apply presCnt_of_all_not_present
  intro j hj
  rw [getD_replicate' m j dPTE dPTE]
  by_cases h : j < m
  · rw [if_pos h]; rfl
  · rw [if_neg h]; rfl

/-! ## `sumUpTo` -/

theorem sumUpTo_congr {f g : Nat → Nat} {n : Nat} (h : ∀ p < n, f p = g p) :
    sumUpTo f n = sumUpTo g n := by
  induction n with
  | zero => rfl
  | succ m ih =>
    simp only [sumUpTo]
    rw [ih (fun p hp => h p (by omega)), h m (by omega)]

theorem sumUpTo_zero_fn (n : Nat) : sumUpTo (fun _ => 0) n = 0 := by
  induction n with
  | zero => rfl
  | succ m ih => simpa [sumUpTo] using ih

theorem sumUpTo_update {f g : Nat → Nat} {j n : Nat} (hp : j < n)
    (h : ∀ q < n, q ≠ j → f q = g q) :
    sumUpTo f n + g j = sumUpTo g n + f j := by
  induction n with
  | zero => omega
  | succ m ih =>
    by_cases hm : j = m
    · subst hm
      have h1 : sumUpTo f j = sumUpTo g j := by
        apply sumUpTo_congr
        intro p hpp
        exact h p (by omega) (by omega)
      simp only [sumUpTo]
      omega
    · have h1 := ih (by omega) (fun q hq hqp => h q (by omega) hqp)
      have hfm : f m = g m := h m (by omega) (fun hh => hm hh.symm)
      simp only [sumUpTo]
      omega

theorem sumUpTo_le {f g : Nat → Nat} {n : Nat} (h : ∀ p < n, f p ≤ g p) :
    sumUpTo f n ≤ sumUpTo g n := by
  induction n with
  | zero => simp [sumUpTo]
  | succ m ih =>
    simp only [sumUpTo]
    have h1 := ih (fun p hp => h p (by omega))
    have h2 := h m (by omega)
    omega

theorem sumUpTo_lt {f g : Nat → Nat} {pid n : Nat} (hp : pid < n)
    (hlt : f pid < g pid) (hle : ∀ p < n, f p ≤ g p) :
    sumUpTo f n < sumUpTo g n := by
  induction n with
  | zero => omega
  | succ m ih =>
    simp only [sumUpTo]
    by_cases hm : pid = m
    · subst hm
      have h1 := sumUpTo_le (f := f) (g := g) (n := pid) (fun p hpp => hle p (by omega))
      omega
    · have h1 := ih (by omega) (fun p hp => hle p (by omega))
      have h2 := hle m (by omega)
      omega

/-! ## `freeScan` (the frame-release loop of `proc_exit_vm`) -/

theorem getD_set_false_self (l : List Bool) (f : Nat) :
    (l.set f false).getD f false = false := by
  by_cases h : f < l.length
  · exact getD_set_self _ _ _ _ h
  · rw [List.set_eq_of_length_le (by omega)]
    exact List.getD_eq_default _ _ (by omega)

theorem freeScan_succ (pt : List PTE) (n : Nat) (occ : List Bool) :
    freeScan pt (n + 1) occ =
      (if (pt.getD n dPTE).present then
        (freeScan pt n occ).set (pt.getD n dPTE).PFN.toNat false
      else freeScan pt n occ) := by
  unfold freeScan
  rw [List.range_succ, List.foldl_append]
  rfl

theorem freeScan_length (pt : List PTE) (n : Nat) (occ : List Bool) :
    (freeScan pt n occ).length = occ.length := by
  induction n with
  | zero => rfl
  | succ m ih =>
    rw [freeScan_succ]
    by_cases h : (pt.getD m dPTE).present = true
    · rw [if_pos h, List.length_set, ih]
    · rw [if_neg h, ih]

theorem freeScan_stays_false {pt : List PTE} {n : Nat} {occ : List Bool}
    {f : Nat} (h : occ.getD f false = false) :
    (freeScan pt n occ).getD f false = false := by
  induction n with
  | zero => exact h
  | succ m ih =>
    rw [freeScan_succ]
    by_cases hp : (pt.getD m dPTE).present = true
    · rw [if_pos hp]
      by_cases he : (pt.getD m dPTE).PFN.toNat = f
      · rw [he]
        exact getD_set_false_self _ _
      · rw [getD_set_ne _ _ _ he]
        exact ih
    · rw [if_neg hp]
      exact ih

theorem freeScan_frees {pt : List PTE} {n : Nat} {occ : List Bool} {f : Nat}
    (h : ∃ i < n, (pt.getD i dPTE).present = true ∧
      (pt.getD i dPTE).PFN.toNat = f) :
    (freeScan pt n occ).getD f false = false := by
  induction n with
  | zero => obtain ⟨i, hi, _⟩ := h; omega
  | succ m ih =>
    obtain ⟨i, hi, hp, he⟩ := h
    rw [freeScan_succ]
    by_cases him : i = m
    · subst him
      rw [if_pos hp, he]
      exact getD_set_false_self _ _
    · have hrec := ih ⟨i, by omega, hp, he⟩
      by_cases hpm : (pt.getD m dPTE).present = true
      · rw [if_pos hpm]
        by_cases he' : (pt.getD m dPTE).PFN.toNat = f
        · rw [he']
          exact getD_set_false_self _ _
        · rw [getD_set_ne _ _ _ he']
          exact hrec
      · rw [if_neg hpm]
        exact hrec

theorem freeScan_other {pt : List PTE} {n : Nat} {occ : List Bool} {f : Nat}
    (h : ∀ i < n, (pt.getD i dPTE).present = true →
      (pt.getD i dPTE).PFN.toNat ≠ f) :
    (freeScan pt n occ).getD f false = occ.getD f false := by
  induction n with
  | zero => rfl
  | succ m ih =>
    rw [freeScan_succ]
    have hrec := ih (fun i hi hp => h i (by omega) hp)
    by_cases hpm : (pt.getD m dPTE).present = true
    · rw [if_pos hpm, getD_set_ne _ _ _ (h m (by omega) hpm)]
      exact hrec
    · rw [if_neg hpm]
      exact hrec

/-- Counting version: if the present entries among the first `n` slots
carry pairwise distinct in-range frames that are all occupied, the release
loop lowers the occupied count by exactly the number of present entries. -/
theorem freeScan_cnt {pt : List PTE} {n : Nat} {occ : List Bool}
    (hocc : ∀ i < n, (pt.getD i dPTE).present = true →
      occ.getD (pt.getD i dPTE).PFN.toNat false = true)
    (hlen : ∀ i < n, (pt.getD i dPTE).present = true →
      (pt.getD i dPTE).PFN.toNat < occ.length)
    (hdist : ∀ i < n, ∀ j < n, i ≠ j → (pt.getD i dPTE).present = true →
      (pt.getD j dPTE).present = true →
      (pt.getD i dPTE).PFN.toNat ≠ (pt.getD j dPTE).PFN.toNat) :
    cntTrue occ = cntTrue (freeScan pt n occ) + presCnt pt n := by
  induction n with
  | zero => simp [freeScan, presCnt]
  | succ m ih =>
    have hrec := ih (fun i hi hp => hocc i (by omega) hp)
      (fun i hi hp => hlen i (by omega) hp)
      (fun i hi j hj hij hpi hpj => hdist i (by omega) j (by omega) hij hpi hpj)
    rw [freeScan_succ]
    simp only [presCnt]
    by_cases hpm : (pt.getD m dPTE).present = true
    · rw [if_pos hpm, if_pos hpm]
      have hne : ∀ i < m, (pt.getD i dPTE).present = true →
          (pt.getD i dPTE).PFN.toNat ≠ (pt.getD m dPTE).PFN.toNat :=
        fun i hi hp => hdist i (by omega) m (by omega) (by omega) hp hpm
      have hval : (freeScan pt m occ).getD (pt.getD m dPTE).PFN.toNat false = true := by
        rw [freeScan_other hne]
        exact hocc m (by omega) hpm
      have hlt : (pt.getD m dPTE).PFN.toNat < (freeScan pt m occ).length := by
        rw [freeScan_length]
        exact hlen m (by omega) hpm
      have := cntTrue_set_false hlt hval
      omega
    · rw [if_neg hpm, if_neg hpm]
      omega

/-! ## `mapPage` characterization -/

theorem mapPage_present {k : Kernel} {pid i : Nat}
    (h : (pteOf k pid i).present = true) :
    mapPage k pid i = some (k, (pteOf k pid i).PFN.toNat) := by
  unfold mapPage
  rw [if_pos h]

theorem mapPage_noFrame {k : Kernel} {pid i : Nat}
    (h : (pteOf k pid i).present = false)
    (hff : firstFree k.occupied_pages = none) : mapPage k pid i = none := by
  unfold mapPage
  rw [if_neg (by rw [h]; exact Bool.false_ne_true), hff]

theorem mapPage_alloc {k : Kernel} {pid i j : Nat}
    (h : (pteOf k pid i).present = false)
    (hff : firstFree k.occupied_pages = some j) :
    mapPage k pid i = some
      ({ k with
          occupied_pages := k.occupied_pages.set j true
          mm := k.mm.set pid
            { mdOf k pid with
                page_table := some ((ptOf k pid).set i ⟨(j : Int), true⟩) } },
        j) := by
  unfold mapPage
  rw [if_neg (by rw [h]; exact Bool.false_ne_true), hff]

theorem getD_set_pred {α : Type} (l : List α) (idx : Nat) (a d : α) (p : Nat) :
    (l.set idx a).getD p d =
      if p = idx ∧ idx < l.length then a else l.getD p d := by
  by_cases h1 : p = idx
  · subst h1
    by_cases h2 : p < l.length
    · rw [getD_set_self _ _ _ _ h2, if_pos ⟨rfl, h2⟩]
    · rw [List.set_eq_of_length_le (by omega), if_neg (by tauto)]
  · rw [getD_set_ne _ _ _ (fun hh => h1 hh.symm), if_neg (by tauto)]

theorem mapPage_cases {k k1 : Kernel} {pid i pfn : Nat}
    (h : mapPage k pid i = some (k1, pfn)) :
    ((pteOf k pid i).present = true ∧ k1 = k ∧
      pfn = (pteOf k pid i).PFN.toNat) ∨
    ((pteOf k pid i).present = false ∧
      firstFree k.occupied_pages = some pfn ∧
      k1 = { k with
          occupied_pages := k.occupied_pages.set pfn true
          mm := k.mm.set pid
            { mdOf k pid with
                page_table := some ((ptOf k pid).set i ⟨(pfn : Int), true⟩) } }) := by
  by_cases hp : (pteOf k pid i).present = true
  · rw [mapPage_present hp] at h
    cases h
    exact Or.inl ⟨hp, rfl, rfl⟩
  · have hp' : (pteOf k pid i).present = false := by
      cases hb : (pteOf k pid i).present
      · rfl
      · exact absurd hb hp
    cases hff : firstFree k.occupied_pages with
    | none => rw [mapPage_noFrame hp' hff] at h; cases h
    | some j =>
      rw [mapPage_alloc hp' hff] at h
      cases h
      exact Or.inr ⟨hp', rfl, rfl⟩

theorem extends_rfl (k : Kernel) : Extends k k :=
  ⟨rfl, rfl, fun _ => rfl, fun _ => rfl, fun _ _ _ => rfl, fun _ h => h, rfl⟩

theorem extends_trans {k1 k2 k3 : Kernel} (h12 : Extends k1 k2)
    (h23 : Extends k2 k3) : Extends k1 k3 := by
  obtain ⟨a1, b1, c1, d1, e1, f1, g1⟩ := h12
  obtain ⟨a2, b2, c2, d2, e2, f2, g2⟩ := h23
  refine ⟨a2.trans a1, b2.trans b1, fun p => (c2 p).trans (c1 p),
    fun p => (d2 p).trans (d1 p), ?_, fun f hf => f2 f (f1 f hf), g2.trans g1⟩
  intro p ii hp
  have h1 := e1 p ii hp
  have h2 := e2 p ii (by rw [h1]; exact hp)
  rw [h2, h1]

/-- Descriptor lookup after updating one slot of the `mm` array (the
`occupied_pages` component of the state is irrelevant to `mdOf`). -/
theorem mdOf_after_set (k : Kernel) (o : List Bool) (pid : Nat)
    (md' : MMStruct) (p : Nat) :
    mdOf { k with occupied_pages := o, mm := k.mm.set pid md' } p =
      if p = pid ∧ pid < k.mm.length then md' else mdOf k p :=
  getD_set_pred k.mm pid md' dMM p

/-- Each lazy-mapping step only adds mappings and occupations. -/
theorem mapPage_extends {k k1 : Kernel} {pid i pfn : Nat}
    (h : mapPage k pid i = some (k1, pfn)) : Extends k k1 := by
  rcases mapPage_cases h with ⟨_, rfl, _⟩ | ⟨hp, hff, rfl⟩
  · exact extends_rfl _
  · obtain ⟨hjlt, hjfree, _⟩ := firstFree_some hff
    refine ⟨rfl, rfl, ?_, ?_, ?_, ?_, by simp⟩
    · intro p
      rw [mdOf_after_set]
      by_cases hc : p = pid ∧ pid < k.mm.length
      · rw [if_pos hc, hc.1]
      · rw [if_neg hc]
    · intro p
      simp only [ptOf]
      rw [mdOf_after_set]
      by_cases hc : p = pid ∧ pid < k.mm.length
      · rw [if_pos hc, hc.1]
        simp [List.length_set]
      · rw [if_neg hc]
    · intro p ii hpr
      simp only [pteOf, ptOf]
      rw [mdOf_after_set]
      by_cases hc : p = pid ∧ pid < k.mm.length
      · rw [if_pos hc]
        have hii : i ≠ ii := by
          intro hh
          rw [← hc.1, hh] at hp
          rw [hpr] at hp
          cases hp
        show (((mdOf k pid).page_table.getD []).set i _).getD ii dPTE = _
        rw [getD_set_ne _ _ _ hii, hc.1]
      · rw [if_neg hc]
    · intro f hf
      show (k.occupied_pages.set pfn true).getD f false = true
      rw [getD_set_pred]
      by_cases hc : f = pfn ∧ pfn < k.occupied_pages.length
      · rw [if_pos hc]
      · rw [if_neg hc]
        exact hf

/-! ## The page loops factor through `mapLoop` -/

theorem eqExceptSpace_rfl (k : Kernel) : EqExceptSpace k k :=
  ⟨rfl, rfl, rfl, rfl⟩

theorem eqExceptSpace_trans {k1 k2 k3 : Kernel} (h12 : EqExceptSpace k1 k2)
    (h23 : EqExceptSpace k2 k3) : EqExceptSpace k1 k3 :=
  ⟨h12.1.trans h23.1, h12.2.1.trans h23.2.1, h12.2.2.1.trans h23.2.2.1,
    h12.2.2.2.trans h23.2.2.2⟩

theorem eqExceptSpace_setSpace (k : Kernel) (sp : List Int) :
    EqExceptSpace { k with space := sp } k :=
  ⟨rfl, rfl, rfl, rfl⟩

theorem mapPage_space (k : Kernel) (sp : List Int) (pid i : Nat) :
    mapPage { k with space := sp } pid i =
      (mapPage k pid i).map (fun q => ({ q.1 with space := sp }, q.2)) := by
  have hpe : pteOf { k with space := sp } pid i = pteOf k pid i := rfl
  by_cases hp : (pteOf k pid i).present = true
  · rw [mapPage_present (by rw [hpe]; exact hp), mapPage_present hp]
    rfl
  · have hp' : (pteOf k pid i).present = false := by
      cases hb : (pteOf k pid i).present
      · rfl
      · exact absurd hb hp
    have hoe : ({ k with space := sp } : Kernel).occupied_pages =
        k.occupied_pages := rfl
    cases hff : firstFree k.occupied_pages with
    | none =>
      rw [mapPage_noFrame (by rw [hpe]; exact hp') (by rw [hoe]; exact hff),
        mapPage_noFrame hp' hff]
      rfl
    | some j =>
      rw [mapPage_alloc (by rw [hpe]; exact hp') (by rw [hoe]; exact hff),
        mapPage_alloc hp' hff]
      rfl

theorem mapLoop_cons_none {k : Kernel} {pid i : Nat} {rest : List Nat}
    (h : mapPage k pid i = none) : mapLoop pid (i :: rest) k = (k, false) := by
  unfold mapLoop
  rw [h]

theorem mapLoop_cons_some {k k1 : Kernel} {pid i pfn : Nat} {rest : List Nat}
    (h : mapPage k pid i = some (k1, pfn)) :
    mapLoop pid (i :: rest) k = mapLoop pid rest k1 := by
  conv_lhs => unfold mapLoop
  rw [h]

theorem mapLoop_space (pid : Nat) (l : List Nat) (k : Kernel) (sp : List Int) :
    mapLoop pid l { k with space := sp } =
      ({ (mapLoop pid l k).1 with space := sp }, (mapLoop pid l k).2) := by
  induction l generalizing k with
  | nil => rfl
  | cons i rest ih =>
    cases hmp : mapPage k pid i with
    | none =>
      have h2 : mapPage { k with space := sp } pid i = none := by
        rw [mapPage_space, hmp]
        rfl
      rw [mapLoop_cons_none h2, mapLoop_cons_none hmp]
    | some q =>
      obtain ⟨k1, pfn⟩ := q
      have h2 : mapPage { k with space := sp } pid i =
          some ({ k1 with space := sp }, pfn) := by
        rw [mapPage_space, hmp]
        rfl
      rw [mapLoop_cons_some h2, mapLoop_cons_some hmp, ih k1]

theorem readLoop_cons_none {cfg : Config} {pid sPg ePg so eo n : Nat}
    {i : Nat} {rest : List Nat} {k : Kernel} {buf : List Int} {curr : Nat}
    (h : mapPage k pid i = none) :
    readLoop cfg pid sPg ePg so eo n (i :: rest) k buf curr =
      (k, .error .NoFreeFrame) := by
  unfold readLoop
  rw [h]

theorem readLoop_cons_some {cfg : Config} {pid sPg ePg so eo n : Nat}
    {i : Nat} {rest : List Nat} {k k1 : Kernel} {pfn : Nat} {buf : List Int}
    {curr : Nat} (h : mapPage k pid i = some (k1, pfn)) :
    readLoop cfg pid sPg ePg so eo n (i :: rest) k buf curr =
      (if sPg = ePg then
        readLoop cfg pid sPg ePg so eo n rest k1
          (writeSeg buf 0 (readSeg k1.space (cfg.PAGE_SIZE * pfn + so) n)) curr
      else if i = sPg then
        readLoop cfg pid sPg ePg so eo n rest k1
          (writeSeg buf 0
            (readSeg k1.space (cfg.PAGE_SIZE * pfn + so) (cfg.PAGE_SIZE - so)))
          (curr + (cfg.PAGE_SIZE - so))
      else if i = ePg then
        readLoop cfg pid sPg ePg so eo n rest k1
          (writeSeg buf curr (readSeg k1.space (cfg.PAGE_SIZE * pfn) eo)) curr
      else
        readLoop cfg pid sPg ePg so eo n rest k1
          (writeSeg buf curr
            (readSeg k1.space (cfg.PAGE_SIZE * pfn) cfg.PAGE_SIZE))
          (curr + cfg.PAGE_SIZE)) := by
  conv_lhs => unfold readLoop
  rw [h]

theorem writeLoop_cons_none {cfg : Config} {pid sPg ePg so eo n : Nat}
    {buf : List Int} {i : Nat} {rest : List Nat} {k : Kernel} {curr : Nat}
    (h : mapPage k pid i = none) :
    writeLoop cfg pid sPg ePg so eo n buf (i :: rest) k curr =
      (k, .error .NoFreeFrame) := by
  unfold writeLoop
  rw [h]

theorem writeLoop_cons_some {cfg : Config} {pid sPg ePg so eo n : Nat}
    {buf : List Int} {i : Nat} {rest : List Nat} {k k1 : Kernel} {pfn : Nat}
    {curr : Nat} (h : mapPage k pid i = some (k1, pfn)) :
    writeLoop cfg pid sPg ePg so eo n buf (i :: rest) k curr =
      (if sPg = ePg then
        writeLoop cfg pid sPg ePg so eo n buf rest
          { k1 with space := writeSeg k1.space (cfg.PAGE_SIZE * pfn + so) (buf.take n) } curr
      else if i = sPg then
        writeLoop cfg pid sPg ePg so eo n buf rest
          { k1 with space := writeSeg k1.space (cfg.PAGE_SIZE * pfn + so) (buf.take (cfg.PAGE_SIZE - so)) }
          (curr + (cfg.PAGE_SIZE - so))
      else if i = ePg then
        writeLoop cfg pid sPg ePg so eo n buf rest
          { k1 with space := writeSeg k1.space (cfg.PAGE_SIZE * pfn) ((buf.drop curr).take eo) } curr
      else
        writeLoop cfg pid sPg ePg so eo n buf rest
          { k1 with space := writeSeg k1.space (cfg.PAGE_SIZE * pfn) ((buf.drop curr).take cfg.PAGE_SIZE) }
          (curr + cfg.PAGE_SIZE)) := by
  conv_lhs => unfold writeLoop
  rw [h]

theorem readLoop_eq_mapLoop (cfg : Config) (pid sPg ePg so eo n : Nat)
    (l : List Nat) (k : Kernel) (buf : List Int) (curr : Nat) :
    (readLoop cfg pid sPg ePg so eo n l k buf curr).1 = (mapLoop pid l k).1 ∧
    ((mapLoop pid l k).2 = true ∧
        (∃ out, (readLoop cfg pid sPg ePg so eo n l k buf curr).2 = .ok out) ∨
      (mapLoop pid l k).2 = false ∧
        (readLoop cfg pid sPg ePg so eo n l k buf curr).2 =
          .error .NoFreeFrame) := by
  induction l generalizing k buf curr with
  | nil => exact ⟨rfl, Or.inl ⟨rfl, ⟨buf, rfl⟩⟩⟩
  | cons i rest ih =>
    cases hmp : mapPage k pid i with
    | none =>
      rw [readLoop_cons_none hmp, mapLoop_cons_none hmp]
      exact ⟨rfl, Or.inr ⟨rfl, rfl⟩⟩
    | some q =>
      obtain ⟨k1, pfn⟩ := q
      rw [readLoop_cons_some hmp, mapLoop_cons_some hmp]
      by_cases h1 : sPg = ePg
      · rw [if_pos h1]
        exact ih k1 _ curr
      · rw [if_neg h1]
        by_cases h2 : i = sPg
        · rw [if_pos h2]
          exact ih k1 _ _
        · rw [if_neg h2]
          by_cases h3 : i = ePg
          · rw [if_pos h3]
            exact ih k1 _ curr
          · rw [if_neg h3]
            exact ih k1 _ _

theorem writeLoop_eq_mapLoop (cfg : Config) (pid sPg ePg so eo n : Nat)
    (buf : List Int) (l : List Nat) (k : Kernel) (curr : Nat) :
    EqExceptSpace (writeLoop cfg pid sPg ePg so eo n buf l k curr).1
      (mapLoop pid l k).1 ∧
    ((mapLoop pid l k).2 = true ∧
        (writeLoop cfg pid sPg ePg so eo n buf l k curr).2 = .ok () ∨
      (mapLoop pid l k).2 = false ∧
        (writeLoop cfg pid sPg ePg so eo n buf l k curr).2 =
          .error .NoFreeFrame) := by
  induction l generalizing k curr with
  | nil => exact ⟨eqExceptSpace_rfl k, Or.inl ⟨rfl, rfl⟩⟩
  | cons i rest ih =>
    cases hmp : mapPage k pid i with
    | none =>
      rw [writeLoop_cons_none hmp, mapLoop_cons_none hmp]
      exact ⟨eqExceptSpace_rfl k, Or.inr ⟨rfl, rfl⟩⟩
    | some q =>
      obtain ⟨k1, pfn⟩ := q
      rw [writeLoop_cons_some hmp, mapLoop_cons_some hmp]
      have key : ∀ (sp : List Int) (cu : Nat),
          EqExceptSpace
            (writeLoop cfg pid sPg ePg so eo n buf rest
              { k1 with space := sp } cu).1 (mapLoop pid rest k1).1 ∧
          ((mapLoop pid rest k1).2 = true ∧
              (writeLoop cfg pid sPg ePg so eo n buf rest
                { k1 with space := sp } cu).2 = .ok () ∨
            (mapLoop pid rest k1).2 = false ∧
              (writeLoop cfg pid sPg ePg so eo n buf rest
                { k1 with space := sp } cu).2 = .error .NoFreeFrame) := by
        intro sp cu
        have hrec := ih { k1 with space := sp } cu
        rw [mapLoop_space pid rest k1 sp] at hrec
        refine ⟨eqExceptSpace_trans hrec.1 (eqExceptSpace_setSpace _ _), ?_⟩
        exact hrec.2
      by_cases h1 : sPg = ePg
      · rw [if_pos h1]
        exact key _ curr
      · rw [if_neg h1]
        by_cases h2 : i = sPg
        · rw [if_pos h2]
          exact key _ _
        · rw [if_neg h2]
          by_cases h3 : i = ePg
          · rw [if_pos h3]
            exact key _ curr
          · rw [if_neg h3]
            exact key _ _

/-! ## Invariant preservation: `mapPage` -/

theorem isRun_lt {k : Kernel} {p : Nat} (h : IsRun k p) :
    p < k.running.length := by
  by_contra hc
  unfold IsRun at h
  rw [List.getD_eq_default _ _ (by omega)] at h
  cases h

theorem mapPage_inv {cfg : Config} {k k1 : Kernel} {pid i pfn : Nat}
    (hinv : KInv cfg k) (hrun : IsRun k pid) (hi : i < (ptOf k pid).length)
    (h : mapPage k pid i = some (k1, pfn)) :
    KInv cfg k1 ∧ MapsTo k1 pid i pfn := by
  rcases mapPage_cases h with ⟨hp, rfl, hpfnv⟩ | ⟨hp, hff, rfl⟩
  · refine ⟨hinv, hrun, hi, hp, ?_⟩
    obtain ⟨f, hflt, hfe⟩ := hinv.pfn_lt pid i hi hp
    rw [hpfnv, hfe]
    simp
  · obtain ⟨hjlt, hjfree, hjleast⟩ := firstFree_some hff
    have hjNF : pfn < frameCount cfg := by
      rw [← hinv.occ_len]
      exact hjlt
    have hpidlt : pid < k.mm.length := by
      rw [hinv.mm_len, ← hinv.run_len]
      exact isRun_lt hrun
    have hptA : ∀ p, ptOf { k with
        occupied_pages := k.occupied_pages.set pfn true
        mm := k.mm.set pid
          { mdOf k pid with
              page_table := some ((ptOf k pid).set i ⟨(pfn : Int), true⟩) } } p =
        if p = pid then (ptOf k pid).set i ⟨(pfn : Int), true⟩
        else ptOf k p := by
      intro p
      unfold ptOf
      rw [mdOf_after_set]
      by_cases hp' : p = pid
      · rw [if_pos ⟨hp', hpidlt⟩, if_pos hp']
        rfl
      · rw [if_neg (by tauto), if_neg hp']
    have hmdA : ∀ p, mdOf { k with
        occupied_pages := k.occupied_pages.set pfn true
        mm := k.mm.set pid
          { mdOf k pid with
              page_table := some ((ptOf k pid).set i ⟨(pfn : Int), true⟩) } } p =
        if p = pid then
          { mdOf k pid with
              page_table := some ((ptOf k pid).set i ⟨(pfn : Int), true⟩) }
        else mdOf k p := by
      intro p
      rw [mdOf_after_set]
      by_cases hp' : p = pid
      · rw [if_pos ⟨hp', hpidlt⟩, if_pos hp']
      · rw [if_neg (by tauto), if_neg hp']
    set A : Kernel := { k with
        occupied_pages := k.occupied_pages.set pfn true
        mm := k.mm.set pid
          { mdOf k pid with
              page_table := some ((ptOf k pid).set i ⟨(pfn : Int), true⟩) } }
      with hA
    have hrunA : A.running = k.running := rfl
    have hoccA : A.occupied_pages = k.occupied_pages.set pfn true := rfl
    have hIsRunA : ∀ p, IsRun A p ↔ IsRun k p := fun p => Iff.rfl
    have hsizeA : ∀ p, (mdOf A p).size = (mdOf k p).size := by
      intro p
      rw [hmdA]
      by_cases hp' : p = pid
      · rw [if_pos hp', hp']
      · rw [if_neg hp']
    have hpteA_eq : ∀ p ii, ¬(p = pid ∧ ii = i) → pteOf A p ii = pteOf k p ii := by
      intro p ii hne
      unfold pteOf
      rw [hptA]
      by_cases hp' : p = pid
      · rw [if_pos hp']
        have hii : i ≠ ii := by
          intro hh
          exact hne ⟨hp', hh.symm⟩
        rw [getD_set_ne _ _ _ hii, hp']
      · rw [if_neg hp']
    have hpteA_i : pteOf A pid i = ⟨(pfn : Int), true⟩ := by
      unfold pteOf
      rw [hptA, if_pos rfl]
      exact getD_set_self _ _ _ _ hi
    have hlenA : ∀ p, (ptOf A p).length = (ptOf k p).length := by
      intro p
      rw [hptA]
      by_cases hp' : p = pid
      · rw [if_pos hp', List.length_set, hp']
      · rw [if_neg hp']
    have hmaps : ∀ p ii f, MapsTo A p ii f ↔
        ((p = pid ∧ ii = i ∧ f = pfn) ∨ MapsTo k p ii f) := by
      intro p ii f
      constructor
      · rintro ⟨hr, hl, hpr, hpf⟩
        by_cases hc : p = pid ∧ ii = i
        · left
          refine ⟨hc.1, hc.2, ?_⟩
          rw [hc.1, hc.2] at hpf
          rw [hpteA_i] at hpf
          have hpf' : (pfn : Int) = (f : Int) := hpf
          exact_mod_cast hpf'.symm
        · right
          rw [hpteA_eq p ii hc] at hpr hpf
          rw [hlenA] at hl
          exact ⟨(hIsRunA p).mp hr, hl, hpr, hpf⟩
      · rintro (⟨hpp, hii, hf⟩ | ⟨hr, hl, hpr, hpf⟩)
        · refine ⟨?_, ?_, ?_, ?_⟩
          · rw [hpp]
            exact (hIsRunA pid).mpr hrun
          · rw [hpp, hii, hlenA]
            exact hi
          · rw [hpp, hii, hpteA_i]
          · rw [hpp, hii, hpteA_i, hf]
        · have hc : ¬(p = pid ∧ ii = i) := by
            rintro ⟨hpp, hii⟩
            rw [hpp, hii] at hpr
            rw [hpr] at hp
            cases hp
          refine ⟨(hIsRunA p).mpr hr, ?_, ?_, ?_⟩
          · rw [hlenA]; exact hl
          · rw [hpteA_eq p ii hc]; exact hpr
          · rw [hpteA_eq p ii hc]; exact hpf
    have hnewmaps : MapsTo A pid i pfn := (hmaps pid i pfn).mpr (Or.inl ⟨rfl, rfl, rfl⟩)
    have hnotmapped : ∀ p ii, ¬MapsTo k p ii pfn := by
      intro p ii hm
      have := (hinv.occ_maps pfn hjNF).mpr ⟨p, ii, hm⟩
      rw [hjfree] at this
      cases this
    refine ⟨⟨?_, ?_, ?_, ?_, ?_, ?_, ?_, ?_, ?_, ?_, ?_⟩, hnewmaps⟩
    · rw [hoccA, List.length_set]
      exact hinv.occ_len
    · rw [hrunA]
      exact hinv.run_len
    · show (k.mm.set pid _).length = _
      rw [List.length_set]
      exact hinv.mm_len
    · intro p hnp
      rw [hmdA]
      have hppid : p ≠ pid := by
        intro hh
        rw [hh] at hnp
        unfold IsRun at hrun
        rw [hrun] at hnp
        cases hnp
      rw [if_neg hppid]
      exact hinv.not_run p hnp
    · intro p hr
      have hrk : IsRun k p := (hIsRunA p).mp hr
      obtain ⟨h1, h2, pt0, hpt0, hlen0⟩ := hinv.run_pt p hrk
      rw [hmdA]
      by_cases hp' : p = pid
      · rw [hp'] at h1 h2 hpt0 hlen0
        rw [if_pos hp']
        refine ⟨h1, h2, (ptOf k pid).set i ⟨(pfn : Int), true⟩, rfl, ?_⟩
        rw [List.length_set]
        show (ptOf k pid).length = pagesFor cfg.PAGE_SIZE (mdOf k pid).size.toNat
        have hpteq : ptOf k pid = pt0 := by
          unfold ptOf
          rw [hpt0]
          rfl
        rw [hpteq]
        exact hlen0
      · rw [if_neg hp']
        exact ⟨h1, h2, pt0, hpt0, hlen0⟩
    · intro p ii hl hpr
      by_cases hc : p = pid ∧ ii = i
      · rw [hc.1, hc.2, hpteA_i]
        exact ⟨pfn, hjNF, rfl⟩
      · rw [hpteA_eq p ii hc] at hpr ⊢
        rw [hlenA] at hl
        exact hinv.pfn_lt p ii hl hpr
    · intro f hf
      rw [hoccA]
      by_cases hfj : f = pfn
      · subst hfj
        rw [getD_set_self _ _ _ _ hjlt]
        simp only [true_iff]
        exact ⟨pid, i, hnewmaps⟩
      · rw [getD_set_ne _ _ _ (fun hh => hfj hh.symm)]
        rw [hinv.occ_maps f hf]
        constructor
        · rintro ⟨p, ii, hm⟩
          exact ⟨p, ii, (hmaps p ii f).mpr (Or.inr hm)⟩
        · rintro ⟨p, ii, hm⟩
          rcases (hmaps p ii f).mp hm with ⟨_, _, hfe⟩ | hm'
          · exact absurd hfe hfj
          · exact ⟨p, ii, hm'⟩
    · intro f p ii p' ii' hm1 hm2
      rcases (hmaps p ii f).mp hm1 with ⟨e1, e2, e3⟩ | hm1'
      · rcases (hmaps p' ii' f).mp hm2 with ⟨e1', e2', e3'⟩ | hm2'
        · rw [e1, e2, e1', e2']
          exact ⟨rfl, rfl⟩
        · rw [e3] at hm2'
          exact absurd hm2' (hnotmapped p' ii')
      · rcases (hmaps p' ii' f).mp hm2 with ⟨e1', e2', e3'⟩ | hm2'
        · rw [e3'] at hm1'
          exact absurd hm1' (hnotmapped p ii)
        · exact hinv.excl f p ii p' ii' hm1' hm2'
    · show k.allocated_pages = _
      rw [hinv.alloc_sum]
      congr 1
      apply sumUpTo_congr
      intro p hplt
      show (if k.running.getD p false = true then
          pagesFor cfg.PAGE_SIZE (mdOf k p).size.toNat else 0) =
        (if A.running.getD p false = true then
          pagesFor cfg.PAGE_SIZE (mdOf A p).size.toNat else 0)
      rw [hrunA, hsizeA p]
    · show k.allocated_pages ≤ _
      exact hinv.alloc_le
    · rw [hoccA, cntTrue_set_true hjlt hjfree, hinv.cnt_eq]
      unfold mappedCount
      have hstep : presCnt (ptOf A pid) (ptOf A pid).length =
          presCnt (ptOf k pid) (ptOf k pid).length + 1 := by
        rw [hptA, if_pos rfl, List.length_set]
        have hpcs := presCnt_set ⟨(pfn : Int), true⟩ hi hi
        unfold pteOf at hp
        rw [hp] at hpcs
        simp at hpcs
        omega
      have hupd := sumUpTo_update (n := cfg.MAX_PROCESS_NUM)
        (f := fun p => presCnt (ptOf A p) (ptOf A p).length)
        (g := fun p => presCnt (ptOf k p) (ptOf k p).length)
        (j := pid) (by rw [← hinv.run_len]; exact isRun_lt hrun)
        (by
          intro q hq hqp
          show presCnt (ptOf A q) (ptOf A q).length =
            presCnt (ptOf k q) (ptOf k q).length
          rw [hptA q, if_neg hqp])
      have hupd' : sumUpTo (fun p => presCnt (ptOf A p) (ptOf A p).length)
            cfg.MAX_PROCESS_NUM +
          presCnt (ptOf k pid) (ptOf k pid).length =
        sumUpTo (fun p => presCnt (ptOf k p) (ptOf k p).length)
            cfg.MAX_PROCESS_NUM +
          presCnt (ptOf A pid) (ptOf A pid).length := hupd
      omega

/-! ## Invariant preservation and progress: `mapLoop` -/

theorem mapLoop_extends (pid : Nat) (l : List Nat) (k : Kernel) :
    Extends k (mapLoop pid l k).1 := by
  induction l generalizing k with
  | nil => exact extends_rfl k
  | cons i rest ih =>
    cases hmp : mapPage k pid i with
    | none =>
      rw [mapLoop_cons_none hmp]
      exact extends_rfl k
    | some q =>
      obtain ⟨k1, pfn⟩ := q
      rw [mapLoop_cons_some hmp]
      exact extends_trans (mapPage_extends hmp) (ih k1)

/-- A free frame always exists while some running process still has an
unmapped page: the admission bound reserves a frame for every page of every
running process. -/
theorem exists_free_frame {cfg : Config} {k : Kernel} {pid i0 : Nat}
    (hinv : KInv cfg k) (hrun : IsRun k pid)
    (hi0 : i0 < (ptOf k pid).length)
    (hnp : (pteOf k pid i0).present = false) :
    ∃ j, firstFree k.occupied_pages = some j := by
  apply firstFree_of_cntTrue_lt
  rw [hinv.cnt_eq, hinv.occ_len]
  have hpidlt : pid < cfg.MAX_PROCESS_NUM := by
    rw [← hinv.run_len]
    exact isRun_lt hrun
  have hlt : mappedCount cfg k < sumPagesNat cfg k := by
    apply sumUpTo_lt hpidlt
    · obtain ⟨h1, h2, pt0, hpt0, hlen0⟩ := hinv.run_pt pid hrun
      have hpteq : ptOf k pid = pt0 := by
        unfold ptOf
        rw [hpt0]
        rfl
      unfold IsRun at hrun
      rw [hrun]
      simp only [if_pos]
      calc presCnt (ptOf k pid) (ptOf k pid).length
        < (ptOf k pid).length := presCnt_lt hi0 hnp
        _ = pagesFor cfg.PAGE_SIZE (mdOf k pid).size.toNat := by
            rw [hpteq, hlen0]
    · intro p hp
      by_cases hb : k.running.getD p false = true
      · rw [if_pos hb]
        obtain ⟨h1, h2, pt0, hpt0, hlen0⟩ := hinv.run_pt p hb
        have hpteq : ptOf k p = pt0 := by
          unfold ptOf
          rw [hpt0]
          rfl
        calc presCnt (ptOf k p) (ptOf k p).length
          ≤ (ptOf k p).length := presCnt_le _ _
          _ = pagesFor cfg.PAGE_SIZE (mdOf k p).size.toNat := by
              rw [hpteq, hlen0]
      · rw [if_neg hb]
        have hb' : k.running.getD p false = false := by
          cases hx : k.running.getD p false
          · rfl
          · exact absurd hx hb
        have hmd := hinv.not_run p hb'
        have hpt : ptOf k p = [] := by
          unfold ptOf
          rw [hmd]
          rfl
        rw [hpt]
        simp [presCnt]
  have hle : sumPagesNat cfg k ≤ frameCount cfg := by
    have h1 := hinv.alloc_le
    rw [hinv.alloc_sum] at h1
    exact_mod_cast h1
  omega

theorem mapLoop_success {cfg : Config} {pid : Nat} {l : List Nat} {k : Kernel}
    (hinv : KInv cfg k) (hrun : IsRun k pid)
    (hb : ∀ i ∈ l, i < (ptOf k pid).length) :
    (mapLoop pid l k).2 = true ∧
    KInv cfg (mapLoop pid l k).1 ∧
    ∀ i ∈ l, (pteOf (mapLoop pid l k).1 pid i).present = true := by
  induction l generalizing k with
  | nil => exact ⟨rfl, hinv, by simp⟩
  | cons i rest ih =>
    have hi : i < (ptOf k pid).length := hb i (by simp)
    have step : ∀ k1 pfn, mapPage k pid i = some (k1, pfn) →
        (mapLoop pid rest k1).2 = true ∧
        KInv cfg (mapLoop pid rest k1).1 ∧
        (∀ ii ∈ rest, (pteOf (mapLoop pid rest k1).1 pid ii).present = true) ∧
        (pteOf (mapLoop pid rest k1).1 pid i).present = true := by
      intro k1 pfn hmp
      obtain ⟨hinv1, hmaps1⟩ := mapPage_inv hinv hrun hi hmp
      have hext := mapPage_extends hmp
      have hrun1 : IsRun k1 pid := by
        unfold IsRun
        rw [hext.1]
        exact hrun
      have hb1 : ∀ ii ∈ rest, ii < (ptOf k1 pid).length := by
        intro ii hii
        rw [hext.2.2.2.1 pid]
        exact hb ii (by simp [hii])
      obtain ⟨hsucc, hinv2, hpres⟩ := ih hinv1 hrun1 hb1
      refine ⟨hsucc, hinv2, hpres, ?_⟩
      have hpr1 : (pteOf k1 pid i).present = true := hmaps1.2.2.1
      have hext2 := mapLoop_extends pid rest k1
      rw [hext2.2.2.2.2.1 pid i hpr1]
      exact hpr1
    by_cases hp : (pteOf k pid i).present = true
    · have hmp := mapPage_present hp
      rw [mapLoop_cons_some hmp]
      obtain ⟨h1, h2, h3, h4⟩ := step k _ hmp
      refine ⟨h1, h2, ?_⟩
      intro ii hii
      rcases List.mem_cons.mp hii with hii | hii
      · rw [hii]; exact h4
      · exact h3 ii hii
    · have hp' : (pteOf k pid i).present = false := by
        cases hx : (pteOf k pid i).present
        · rfl
        · exact absurd hx hp
      obtain ⟨j, hff⟩ := exists_free_frame hinv hrun hi hp'
      have hmp := mapPage_alloc hp' hff
      rw [mapLoop_cons_some hmp]
      obtain ⟨h1, h2, h3, h4⟩ := step _ j hmp
      refine ⟨h1, h2, ?_⟩
      intro ii hii
      rcases List.mem_cons.mp hii with hii | hii
      · rw [hii]; exact h4
      · exact h3 ii hii

theorem mapLoop_inv {cfg : Config} {pid : Nat} {l : List Nat} {k : Kernel}
    (hinv : KInv cfg k) (hok : ∀ i ∈ l, IsRun k pid ∧ i < (ptOf k pid).length) :
    KInv cfg (mapLoop pid l k).1 := by
  induction l generalizing k with
  | nil => exact hinv
  | cons i rest ih =>
    cases hmp : mapPage k pid i with
    | none =>
      rw [mapLoop_cons_none hmp]
      exact hinv
    | some q =>
      obtain ⟨k1, pfn⟩ := q
      rw [mapLoop_cons_some hmp]
      obtain ⟨hrun, hi⟩ := hok i (by simp)
      obtain ⟨hinv1, _⟩ := mapPage_inv hinv hrun hi hmp
      apply ih hinv1
      intro ii hii
      have hext := mapPage_extends hmp
      obtain ⟨hr, hi'⟩ := hok ii (by simp [hii])
      constructor
      · unfold IsRun
        rw [hext.1]
        exact hr
      · rw [hext.2.2.2.1 pid]
        exact hi'

theorem mapLoop_nochange {pid : Nat} {l : List Nat} {k : Kernel}
    (h : ∀ i ∈ l, (pteOf k pid i).present = true) :
    mapLoop pid l k = (k, true) := by
  induction l with
  | nil => rfl
  | cons i rest ih =>
    have hmp := mapPage_present (h i (by simp))
    rw [mapLoop_cons_some hmp]
    exact ih (fun ii hii => h ii (by simp [hii]))

/-! ## Transfer lemmas -/

theorem mdOf_of_mm_eq {X k : Kernel} {pid : Nat} {md' : MMStruct}
    (hmm : X.mm = k.mm.set pid md') (p : Nat) :
    mdOf X p = if p = pid ∧ pid < k.mm.length then md' else mdOf k p := by
  unfold mdOf
  rw [hmm]
  exact getD_set_pred k.mm pid md' dMM p

theorem kinv_transfer {cfg : Config} {k1 k2 : Kernel}
    (he : EqExceptSpace k1 k2) (hinv : KInv cfg k2) : KInv cfg k1 := by
  obtain ⟨ho, hr, hm, ha⟩ := he
  have hmd : ∀ p, mdOf k1 p = mdOf k2 p := by
    intro p
    unfold mdOf
    rw [hm]
  have hpt : ∀ p, ptOf k1 p = ptOf k2 p := by
    intro p
    unfold ptOf
    rw [hmd]
  have hpte : ∀ p i, pteOf k1 p i = pteOf k2 p i := by
    intro p i
    unfold pteOf
    rw [hpt]
  have hrun : ∀ p, IsRun k1 p ↔ IsRun k2 p := by
    intro p
    unfold IsRun
    rw [hr]
  have hmaps : ∀ p i f, MapsTo k1 p i f ↔ MapsTo k2 p i f := by
    intro p i f
    unfold MapsTo
    rw [hpt, hpte, hrun]
  refine ⟨?_, ?_, ?_, ?_, ?_, ?_, ?_, ?_, ?_, ?_, ?_⟩
  · rw [ho]; exact hinv.occ_len
  · rw [hr]; exact hinv.run_len
  · rw [hm]; exact hinv.mm_len
  · intro p hnp
    rw [hmd]
    rw [hr] at hnp
    exact hinv.not_run p hnp
  · intro p hru
    rw [hmd]
    exact hinv.run_pt p ((hrun p).mp hru)
  · intro p i hl hpr
    rw [hpte]
    rw [hpt] at hl
    rw [hpte] at hpr
    exact hinv.pfn_lt p i hl hpr
  · intro f hf
    rw [ho]
    rw [hinv.occ_maps f hf]
    constructor
    · rintro ⟨p, i, hmp⟩
      exact ⟨p, i, (hmaps p i f).mpr hmp⟩
    · rintro ⟨p, i, hmp⟩
      exact ⟨p, i, (hmaps p i f).mp hmp⟩
  · intro f p i p' i' h1 h2
    exact hinv.excl f p i p' i' ((hmaps p i f).mp h1) ((hmaps p' i' f).mp h2)
  · rw [ha, hinv.alloc_sum]
    congr 1
    apply sumUpTo_congr
    intro p hp
    show (if k2.running.getD p false = true then
        pagesFor cfg.PAGE_SIZE (mdOf k2 p).size.toNat else 0) =
      (if k1.running.getD p false = true then
        pagesFor cfg.PAGE_SIZE (mdOf k1 p).size.toNat else 0)
    rw [hr, hmd]
  · rw [ha]; exact hinv.alloc_le
  · rw [ho]
    rw [hinv.cnt_eq]
    unfold mappedCount
    apply sumUpTo_congr
    intro p hp
    show presCnt (ptOf k2 p) (ptOf k2 p).length =
      presCnt (ptOf k1 p) (ptOf k1 p).length
    rw [hpt]

/-! ## `vm_read` / `vm_write` structure -/

theorem vm_read_bounds_fail {cfg : Config} {k : Kernel} {pid : Nat}
    {addr size : Int} {buf : List Int}
    (h : size ≤ 0 ∨ addr < 0 ∨ addr ≥ (mdOf k pid).size ∨
      addr + size > (mdOf k pid).size) :
    vm_read cfg k pid addr size buf = (k, .error .OutOfBounds) := by
  unfold vm_read
  by_cases h1 : size ≤ 0
  · rw [if_pos h1]
  · rw [if_neg h1]
    by_cases h2 : addr < 0 ∨ addr ≥ (mdOf k pid).size
    · rw [if_pos h2]
    · rw [if_neg h2]
      have h3 : addr + size > (mdOf k pid).size := by
        rcases h with h | h | h | h
        · omega
        · exact absurd (Or.inl h) h2
        · exact absurd (Or.inr h) h2
        · exact h
      rw [if_pos h3]

theorem vm_write_bounds_fail {cfg : Config} {k : Kernel} {pid : Nat}
    {addr size : Int} {buf : List Int}
    (h : size ≤ 0 ∨ addr < 0 ∨ addr ≥ (mdOf k pid).size ∨
      addr + size > (mdOf k pid).size) :
    vm_write cfg k pid addr size buf = (k, .error .OutOfBounds) := by
  unfold vm_write
  by_cases h1 : size ≤ 0
  · rw [if_pos h1]
  · rw [if_neg h1]
    by_cases h2 : addr < 0 ∨ addr ≥ (mdOf k pid).size
    · rw [if_pos h2]
    · rw [if_neg h2]
      have h3 : addr + size > (mdOf k pid).size := by
        rcases h with h | h | h | h
        · omega
        · exact absurd (Or.inl h) h2
        · exact absurd (Or.inr h) h2
        · exact h
      rw [if_pos h3]

theorem vm_read_eq_loop {cfg : Config} {k : Kernel} {pid : Nat}
    {addr size : Int} {buf : List Int} (h1 : ¬size ≤ 0)
    (h2 : ¬(addr < 0 ∨ addr ≥ (mdOf k pid).size))
    (h3 : ¬(addr + size > (mdOf k pid).size)) :
    vm_read cfg k pid addr size buf =
      readLoop cfg pid (addr.toNat / cfg.PAGE_SIZE)
        ((addr.toNat + size.toNat - 1) / cfg.PAGE_SIZE)
        (addr.toNat % cfg.PAGE_SIZE) ((addr.toNat + size.toNat) % cfg.PAGE_SIZE)
        size.toNat
        (List.range' (addr.toNat / cfg.PAGE_SIZE)
          ((addr.toNat + size.toNat - 1) / cfg.PAGE_SIZE + 1 -
            addr.toNat / cfg.PAGE_SIZE))
        k buf 0 := by
  unfold vm_read
  rw [if_neg h1, if_neg h2, if_neg h3]

theorem vm_write_eq_loop {cfg : Config} {k : Kernel} {pid : Nat}
    {addr size : Int} {buf : List Int} (h1 : ¬size ≤ 0)
    (h2 : ¬(addr < 0 ∨ addr ≥ (mdOf k pid).size))
    (h3 : ¬(addr + size > (mdOf k pid).size)) :
    vm_write cfg k pid addr size buf =
      writeLoop cfg pid (addr.toNat / cfg.PAGE_SIZE)
        ((addr.toNat + size.toNat - 1) / cfg.PAGE_SIZE)
        (addr.toNat % cfg.PAGE_SIZE) ((addr.toNat + size.toNat) % cfg.PAGE_SIZE)
        size.toNat buf
        (List.range' (addr.toNat / cfg.PAGE_SIZE)
          ((addr.toNat + size.toNat - 1) / cfg.PAGE_SIZE + 1 -
            addr.toNat / cfg.PAGE_SIZE))
        k 0 := by
  unfold vm_write
  rw [if_neg h1, if_neg h2, if_neg h3]

/-- When the bounds checks pass in an invariant state, the addressed process
is running and every page index in the traversed range is inside its page
table. -/
theorem vm_rw_range_ok {cfg : Config} {k : Kernel} {pid : Nat}
    {addr size : Int} (hinv : KInv cfg k) (h1 : ¬size ≤ 0)
    (h2 : ¬(addr < 0 ∨ addr ≥ (mdOf k pid).size))
    (h3 : ¬(addr + size > (mdOf k pid).size)) :
    IsRun k pid ∧
    ∀ i ∈ List.range' (addr.toNat / cfg.PAGE_SIZE)
        ((addr.toNat + size.toNat - 1) / cfg.PAGE_SIZE + 1 -
          addr.toNat / cfg.PAGE_SIZE),
      i < (ptOf k pid).length := by
  push_neg at h1 h2 h3
  obtain ⟨h2a, h2b⟩ := h2
  have hrun : IsRun k pid := by
    cases hx : k.running.getD pid false
    · have hmd := hinv.not_run pid hx
      rw [hmd] at h2b
      simp only [dMM] at h2b
      omega
    · exact hx
  obtain ⟨hs1, hs2, pt0, hpt0, hlen0⟩ := hinv.run_pt pid hrun
  have hpteq : ptOf k pid = pt0 := by
    unfold ptOf
    rw [hpt0]
    rfl
  have han : addr.toNat + size.toNat ≤ (mdOf k pid).size.toNat := by
    have := Int.toNat_le_toNat h3
    rw [Int.toNat_add h2a (by omega)] at this
    exact this
  refine ⟨hrun, ?_⟩
  intro i hi
  rw [List.mem_range'_1] at hi
  have hiend : i ≤ (addr.toNat + size.toNat - 1) / cfg.PAGE_SIZE := by omega
  have hn1 : 1 ≤ size.toNat := by omega
  have hmono : (addr.toNat + size.toNat - 1) / cfg.PAGE_SIZE ≤
      ((mdOf k pid).size.toNat - 1) / cfg.PAGE_SIZE :=
    Nat.div_le_div_right (by omega)
  rw [hpteq]  
  rw [hlen0]
  unfold pagesFor
  omega

/-! ## `proc_create_vm` / `proc_exit_vm` structure -/

theorem create_invalid {cfg : Config} {k : Kernel} {size : Int}
    (h : size ≤ 0 ∨ size > (cfg.VIRTUAL_SPACE_SIZE : Int)) :
    proc_create_vm cfg k size = (k, .error .InvalidSize) := by
  unfold proc_create_vm
  rw [if_pos h]

theorem create_nomem {cfg : Config} {k : Kernel} {size : Int}
    (h1 : ¬(size ≤ 0 ∨ size > (cfg.VIRTUAL_SPACE_SIZE : Int)))
    (h2 : k.allocated_pages + (pagesFor cfg.PAGE_SIZE size.toNat : Int) >
      (frameCount cfg : Int)) :
    proc_create_vm cfg k size = (k, .error .OutOfKernelMemory) := by
  unfold proc_create_vm
  rw [if_neg h1, if_pos h2]

theorem create_noslot {cfg : Config} {k : Kernel} {size : Int}
    (h1 : ¬(size ≤ 0 ∨ size > (cfg.VIRTUAL_SPACE_SIZE : Int)))
    (h2 : ¬(k.allocated_pages + (pagesFor cfg.PAGE_SIZE size.toNat : Int) >
      (frameCount cfg : Int)))
    (h3 : firstFree k.running = none) :
    proc_create_vm cfg k size = (k, .error .NoFreeProcessSlot) := by
  unfold proc_create_vm
  rw [if_neg h1, if_neg h2, h3]

theorem create_ok {cfg : Config} {k : Kernel} {size : Int} {pid : Nat}
    (h1 : ¬(size ≤ 0 ∨ size > (cfg.VIRTUAL_SPACE_SIZE : Int)))
    (h2 : ¬(k.allocated_pages + (pagesFor cfg.PAGE_SIZE size.toNat : Int) >
      (frameCount cfg : Int)))
    (h3 : firstFree k.running = some pid) :
    proc_create_vm cfg k size =
      ({ k with
          allocated_pages :=
            k.allocated_pages + (pagesFor cfg.PAGE_SIZE size.toNat : Int)
          running := k.running.set pid true
          mm := k.mm.set pid
            ⟨size, some (List.replicate (pagesFor cfg.PAGE_SIZE size.toNat) dPTE)⟩ },
        .ok pid) := by
  unfold proc_create_vm
  rw [if_neg h1, if_neg h2, h3]

theorem create_cases (cfg : Config) (k : Kernel) (size : Int) :
    ((∃ e, (proc_create_vm cfg k size).2 = .error e) ∧
      (proc_create_vm cfg k size).1 = k) ∨
    (∃ pid, firstFree k.running = some pid ∧
      ¬(size ≤ 0 ∨ size > (cfg.VIRTUAL_SPACE_SIZE : Int)) ∧
      ¬(k.allocated_pages + (pagesFor cfg.PAGE_SIZE size.toNat : Int) >
        (frameCount cfg : Int)) ∧
      proc_create_vm cfg k size =
        ({ k with
            allocated_pages :=
              k.allocated_pages + (pagesFor cfg.PAGE_SIZE size.toNat : Int)
            running := k.running.set pid true
            mm := k.mm.set pid
              ⟨size, some (List.replicate (pagesFor cfg.PAGE_SIZE size.toNat) dPTE)⟩ },
          .ok pid)) := by
  by_cases h1 : size ≤ 0 ∨ size > (cfg.VIRTUAL_SPACE_SIZE : Int)
  · rw [create_invalid h1]
    exact Or.inl ⟨⟨_, rfl⟩, rfl⟩
  · by_cases h2 : k.allocated_pages +
        (pagesFor cfg.PAGE_SIZE size.toNat : Int) > (frameCount cfg : Int)
    · rw [create_nomem h1 h2]
      exact Or.inl ⟨⟨_, rfl⟩, rfl⟩
    · cases h3 : firstFree k.running with
      | none =>
        rw [create_noslot h1 h2 h3]
        exact Or.inl ⟨⟨_, rfl⟩, rfl⟩
      | some pid =>
        exact Or.inr ⟨pid, rfl, h1, h2, create_ok h1 h2 h3⟩

theorem exit_notRunning {cfg : Config} {k : Kernel} {pid : Nat}
    (h : k.running.getD pid false = false) :
    proc_exit_vm cfg k pid = (k, .error .NotRunning) := by
  unfold proc_exit_vm
  rw [if_pos h]

theorem exit_ok {cfg : Config} {k : Kernel} {pid : Nat}
    (h : k.running.getD pid false = true) :
    proc_exit_vm cfg k pid =
      ({ k with
          occupied_pages := freeScan (ptOf k pid)
            (pagesFor cfg.PAGE_SIZE (mdOf k pid).size.toNat) k.occupied_pages
          mm := k.mm.set pid dMM
          allocated_pages := k.allocated_pages -
            (pagesFor cfg.PAGE_SIZE (mdOf k pid).size.toNat : Int)
          running := k.running.set pid false },
        .ok ()) := by
  unfold proc_exit_vm
  rw [if_neg (by rw [h]; exact Bool.true_eq_false ▸ (by simp))]

/-! ## Invariant preservation: `proc_create_vm` -/

theorem proc_create_vm_inv {cfg : Config} {k : Kernel} {size : Int}
    (hinv : KInv cfg k) : KInv cfg (proc_create_vm cfg k size).1 := by
  rcases create_cases cfg k size with
    ⟨_, hkeq⟩ | ⟨pid, h3, h1, h2, heq⟩
  · rw [hkeq]
    exact hinv
  · rw [heq]
    push_neg at h1
    obtain ⟨hs0, hsV⟩ := h1
    show KInv cfg _
    obtain ⟨hpidlt, hfree, hleast⟩ := firstFree_some h3
    have hpidmm : pid < k.mm.length := by
      rw [hinv.mm_len, ← hinv.run_len]
      exact hpidlt
    have hmdk : mdOf k pid = dMM := hinv.not_run pid hfree
    set need : Nat := pagesFor cfg.PAGE_SIZE size.toNat with hneed
    set md' : MMStruct := ⟨size, some (List.replicate need dPTE)⟩ with hmd'
    set B : Kernel := { k with
        allocated_pages := k.allocated_pages + (need : Int)
        running := k.running.set pid true
        mm := k.mm.set pid md' } with hB
    have hmdB : ∀ p, mdOf B p = if p = pid then md' else mdOf k p := by
      intro p
      rw [mdOf_of_mm_eq rfl p]
      by_cases hp : p = pid
      · rw [if_pos ⟨hp, hpidmm⟩, if_pos hp]
      · rw [if_neg (by tauto), if_neg hp]
    have hptB : ∀ p, ptOf B p =
        if p = pid then List.replicate need dPTE else ptOf k p := by
      intro p
      unfold ptOf
      rw [hmdB p]
      by_cases hp : p = pid
      · rw [if_pos hp, if_pos hp]
        rfl
      · rw [if_neg hp, if_neg hp]
    have hrunB : ∀ p, B.running.getD p false =
        if p = pid then true else k.running.getD p false := by
      intro p
      show (k.running.set pid true).getD p false = _
      rw [getD_set_pred]
      by_cases hp : p = pid
      · rw [if_pos ⟨hp, hpidlt⟩, if_pos hp]
      · rw [if_neg (by tauto), if_neg hp]
    have hpteB : ∀ ii, pteOf B pid ii = dPTE := by
      intro ii
      unfold pteOf
      rw [hptB pid, if_pos rfl, getD_replicate' need ii dPTE dPTE]
      by_cases hii : ii < need
      · rw [if_pos hii]
      · rw [if_neg hii]
    have hpteB' : ∀ p ii, p ≠ pid → pteOf B p ii = pteOf k p ii := by
      intro p ii hp
      unfold pteOf
      rw [hptB p, if_neg hp]
    have hmapsB : ∀ p ii f, MapsTo B p ii f ↔ MapsTo k p ii f := by
      intro p ii f
      constructor
      · rintro ⟨hr, hl, hpr, hpf⟩
        by_cases hp : p = pid
        · rw [hp] at hpr
          rw [hpteB ii] at hpr
          cases hpr
        · refine ⟨?_, ?_, ?_, ?_⟩
          · unfold IsRun at hr ⊢
            rw [hrunB p, if_neg hp] at hr
            exact hr
          · rw [hptB p, if_neg hp] at hl
            exact hl
          · rw [hpteB' p ii hp] at hpr
            exact hpr
          · rw [hpteB' p ii hp] at hpf
            exact hpf
      · rintro ⟨hr, hl, hpr, hpf⟩
        have hp : p ≠ pid := by
          intro hh
          rw [hh] at hr
          unfold IsRun at hr
          rw [hr] at hfree
          cases hfree
        refine ⟨?_, ?_, ?_, ?_⟩
        · unfold IsRun
          rw [hrunB p, if_neg hp]
          exact hr
        · rw [hptB p, if_neg hp]
          exact hl
        · rw [hpteB' p ii hp]
          exact hpr
        · rw [hpteB' p ii hp]
          exact hpf
    refine ⟨?_, ?_, ?_, ?_, ?_, ?_, ?_, ?_, ?_, ?_, ?_⟩
    · exact hinv.occ_len
    · show (k.running.set pid true).length = _
      rw [List.length_set]
      exact hinv.run_len
    · show (k.mm.set pid md').length = _
      rw [List.length_set]
      exact hinv.mm_len
    · intro p hnp
      rw [hrunB p] at hnp
      by_cases hp : p = pid
      · rw [if_pos hp] at hnp
        cases hnp
      · rw [if_neg hp] at hnp
        rw [hmdB p, if_neg hp]
        exact hinv.not_run p hnp
    · intro p hr
      rw [hmdB p]
      by_cases hp : p = pid
      · rw [if_pos hp]
        refine ⟨?_, ?_, List.replicate need dPTE, rfl, ?_⟩
        · show 1 ≤ size
          omega
        · show size ≤ (cfg.VIRTUAL_SPACE_SIZE : Int)
          exact hsV
        · rw [List.length_replicate]
      · rw [if_neg hp]
        apply hinv.run_pt p
        unfold IsRun at hr ⊢
        rw [hrunB p, if_neg hp] at hr
        exact hr
    · intro p ii hl hpr
      by_cases hp : p = pid
      · rw [hp] at hpr
        rw [hpteB ii] at hpr
        cases hpr
      · rw [hpteB' p ii hp] at hpr ⊢
        rw [hptB p, if_neg hp] at hl
        exact hinv.pfn_lt p ii hl hpr
    · intro f hf
      show k.occupied_pages.getD f false = true ↔ _
      rw [hinv.occ_maps f hf]
      constructor
      · rintro ⟨p, ii, hm⟩
        exact ⟨p, ii, (hmapsB p ii f).mpr hm⟩
      · rintro ⟨p, ii, hm⟩
        exact ⟨p, ii, (hmapsB p ii f).mp hm⟩
    · intro f p ii p' ii' hm1 hm2
      exact hinv.excl f p ii p' ii'
        ((hmapsB p ii f).mp hm1) ((hmapsB p' ii' f).mp hm2)
    · show k.allocated_pages + (need : Int) = _
      have hupd := sumUpTo_update (n := cfg.MAX_PROCESS_NUM)
        (f := fun p => if B.running.getD p false = true then
          pagesFor cfg.PAGE_SIZE (mdOf B p).size.toNat else 0)
        (g := fun p => if k.running.getD p false = true then
          pagesFor cfg.PAGE_SIZE (mdOf k p).size.toNat else 0)
        (j := pid) (by rw [← hinv.run_len]; exact hpidlt)
        (by
          intro q hq hqp
          show (if B.running.getD q false = true then
              pagesFor cfg.PAGE_SIZE (mdOf B q).size.toNat else 0) =
            (if k.running.getD q false = true then
              pagesFor cfg.PAGE_SIZE (mdOf k q).size.toNat else 0)
          rw [hrunB q, if_neg hqp, hmdB q, if_neg hqp])
      have hfpid : (if B.running.getD pid false = true then
          pagesFor cfg.PAGE_SIZE (mdOf B pid).size.toNat else 0) = need := by
        rw [hrunB pid, if_pos rfl, hmdB pid, if_pos rfl, if_pos rfl]
      have hgpid : (if k.running.getD pid false = true then
          pagesFor cfg.PAGE_SIZE (mdOf k pid).size.toNat else 0) = 0 := by
        rw [hfree]
        simp
      have hupd2 : sumUpTo (fun p => if B.running.getD p false = true then
            pagesFor cfg.PAGE_SIZE (mdOf B p).size.toNat else 0)
            cfg.MAX_PROCESS_NUM +
          (if k.running.getD pid false = true then
            pagesFor cfg.PAGE_SIZE (mdOf k pid).size.toNat else 0) =
        sumUpTo (fun p => if k.running.getD p false = true then
            pagesFor cfg.PAGE_SIZE (mdOf k p).size.toNat else 0)
            cfg.MAX_PROCESS_NUM +
          (if B.running.getD pid false = true then
            pagesFor cfg.PAGE_SIZE (mdOf B pid).size.toNat else 0) := hupd
      rw [hfpid, hgpid] at hupd2
      rw [hinv.alloc_sum]
      show _ = (sumUpTo (fun p => if B.running.getD p false = true then
          pagesFor cfg.PAGE_SIZE (mdOf B p).size.toNat else 0)
          cfg.MAX_PROCESS_NUM : Int)
      have heq2 : sumUpTo (fun p => if B.running.getD p false = true then
          pagesFor cfg.PAGE_SIZE (mdOf B p).size.toNat else 0)
          cfg.MAX_PROCESS_NUM =
        sumUpTo (fun p => if k.running.getD p false = true then
          pagesFor cfg.PAGE_SIZE (mdOf k p).size.toNat else 0)
          cfg.MAX_PROCESS_NUM + need := by omega
      rw [heq2]
      unfold sumPagesNat
      push_cast
      ring
    · show k.allocated_pages + (need : Int) ≤ _
      omega
    · show cntTrue k.occupied_pages = _
      rw [hinv.cnt_eq]
      unfold mappedCount
      apply sumUpTo_congr
      intro p hp
      show presCnt (ptOf k p) (ptOf k p).length =
        presCnt (ptOf B p) (ptOf B p).length
      rw [hptB p]
      by_cases hpp : p = pid
      · rw [if_pos hpp, presCnt_replicate, hpp]
        have hkpt : ptOf k pid = [] := by
          unfold ptOf
          rw [hmdk]
          rfl
        rw [hkpt, presCnt_nil]
      · rw [if_neg hpp]

/-! ## Invariant preservation: `proc_exit_vm` -/

theorem proc_exit_vm_inv {cfg : Config} {k : Kernel} {pid : Nat}
    (hinv : KInv cfg k) : KInv cfg (proc_exit_vm cfg k pid).1 := by
  by_cases hr : k.running.getD pid false = false
  · rw [exit_notRunning hr]
    exact hinv
  · have hrun : k.running.getD pid false = true := by
      cases hx : k.running.getD pid false
      · exact absurd hx hr
      · rfl
    rw [exit_ok hrun]
    show KInv cfg _
    obtain ⟨hs1, hs2, pt0, hpt0, hlen0⟩ := hinv.run_pt pid hrun
    have hpteq : ptOf k pid = pt0 := by
      unfold ptOf
      rw [hpt0]
      rfl
    set pages : Nat := pagesFor cfg.PAGE_SIZE (mdOf k pid).size.toNat with hpages
    have hptlen : (ptOf k pid).length = pages := by rw [hpteq, hlen0]
    have hpidlt : pid < k.running.length := isRun_lt hrun
    have hpidmm : pid < k.mm.length := by
      rw [hinv.mm_len, ← hinv.run_len]
      exact hpidlt
    set E : Kernel := { k with
        occupied_pages := freeScan (ptOf k pid) pages k.occupied_pages
        mm := k.mm.set pid dMM
        allocated_pages := k.allocated_pages - (pages : Int)
        running := k.running.set pid false } with hE
    have hmdE : ∀ p, mdOf E p = if p = pid then dMM else mdOf k p := by
      intro p
      rw [mdOf_of_mm_eq rfl p]
      by_cases hp : p = pid
      · rw [if_pos ⟨hp, hpidmm⟩, if_pos hp]
      · rw [if_neg (by tauto), if_neg hp]
    have hptE : ∀ p, ptOf E p = if p = pid then ([] : List PTE) else ptOf k p := by
      intro p
      unfold ptOf
      rw [hmdE p]
      by_cases hp : p = pid
      · rw [if_pos hp, if_pos hp]
        rfl
      · rw [if_neg hp, if_neg hp]
    have hrunE : ∀ p, E.running.getD p false =
        if p = pid then false else k.running.getD p false := by
      intro p
      show (k.running.set pid false).getD p false = _
      rw [getD_set_pred]
      by_cases hp : p = pid
      · rw [if_pos ⟨hp, hpidlt⟩, if_pos hp]
      · rw [if_neg (by tauto), if_neg hp]
    have hoccE : E.occupied_pages =
        freeScan (ptOf k pid) pages k.occupied_pages := rfl
    have hmapsE : ∀ p ii f, MapsTo E p ii f ↔ (p ≠ pid ∧ MapsTo k p ii f) := by
      intro p ii f
      constructor
      · rintro ⟨hru, hl, hpr, hpf⟩
        have hp : p ≠ pid := by
          intro hh
          unfold IsRun at hru
          rw [hrunE p, if_pos hh] at hru
          cases hru
        refine ⟨hp, ?_, ?_, ?_, ?_⟩
        · unfold IsRun at hru ⊢
          rw [hrunE p, if_neg hp] at hru
          exact hru
        · rw [hptE p, if_neg hp] at hl
          exact hl
        · unfold pteOf at hpr ⊢
          rw [hptE p, if_neg hp] at hpr
          exact hpr
        · unfold pteOf at hpf ⊢
          rw [hptE p, if_neg hp] at hpf
          exact hpf
      · rintro ⟨hp, hru, hl, hpr, hpf⟩
        refine ⟨?_, ?_, ?_, ?_⟩
        · unfold IsRun
          rw [hrunE p, if_neg hp]
          exact hru
        · rw [hptE p, if_neg hp]
          exact hl
        · unfold pteOf
          rw [hptE p, if_neg hp]
          exact hpr
        · unfold pteOf
          rw [hptE p, if_neg hp]
          exact hpf
    have hmaps_pid : ∀ f, f < frameCount cfg →
        ((∃ ii, MapsTo k pid ii f) ↔
          ∃ i < pages, ((ptOf k pid).getD i dPTE).present = true ∧
            ((ptOf k pid).getD i dPTE).PFN.toNat = f) := by
      intro f hf
      constructor
      · rintro ⟨ii, hru, hl, hpr, hpf⟩
        refine ⟨ii, ?_, hpr, ?_⟩
        · rw [← hptlen]
          exact hl
        · show (pteOf k pid ii).PFN.toNat = f
          rw [hpf]
          simp
      · rintro ⟨i, hi, hpr, hpf⟩
        have hl : i < (ptOf k pid).length := by rw [hptlen]; exact hi
        obtain ⟨f0, hf0lt, hf0⟩ := hinv.pfn_lt pid i hl hpr
        have : f0 = f := by
          have h1 : (pteOf k pid i).PFN.toNat = f := hpf
          rw [hf0] at h1
          simpa using h1
        exact ⟨i, hrun, hl, hpr, by rw [hf0, this]⟩
    refine ⟨?_, ?_, ?_, ?_, ?_, ?_, ?_, ?_, ?_, ?_, ?_⟩
    · show (freeScan (ptOf k pid) pages k.occupied_pages).length = _
      rw [freeScan_length]
      exact hinv.occ_len
    · show (k.running.set pid false).length = _
      rw [List.length_set]
      exact hinv.run_len
    · show (k.mm.set pid dMM).length = _
      rw [List.length_set]
      exact hinv.mm_len
    · intro p hnp
      rw [hmdE p]
      by_cases hp : p = pid
      · rw [if_pos hp]
      · rw [if_neg hp]
        rw [hrunE p, if_neg hp] at hnp
        exact hinv.not_run p hnp
    · intro p hru
      have hp : p ≠ pid := by
        intro hh
        unfold IsRun at hru
        rw [hrunE p, if_pos hh] at hru
        cases hru
      rw [hmdE p, if_neg hp]
      apply hinv.run_pt p
      unfold IsRun at hru ⊢
      rw [hrunE p, if_neg hp] at hru
      exact hru
    · intro p ii hl hpr
      by_cases hp : p = pid
      · rw [hp, hptE pid, if_pos rfl] at hl
        simp at hl
      · unfold pteOf at hpr ⊢
        rw [hptE p, if_neg hp] at hpr hl ⊢
        exact hinv.pfn_lt p ii hl hpr
    · intro f hf
      rw [hoccE]
      by_cases hcase : ∃ i < pages,
          ((ptOf k pid).getD i dPTE).present = true ∧
          ((ptOf k pid).getD i dPTE).PFN.toNat = f
      · rw [freeScan_frees hcase]
        constructor
        · intro hfalse
          cases hfalse
        · rintro ⟨p, ii, hm⟩
          obtain ⟨hp, hmk⟩ := (hmapsE p ii f).mp hm
          obtain ⟨ii', hmk'⟩ := (hmaps_pid f hf).mpr hcase
          exact absurd (hinv.excl f p ii pid ii' hmk hmk').1 hp
      · rw [freeScan_other]
        · rw [hinv.occ_maps f hf]
          constructor
          · rintro ⟨p, ii, hm⟩
            have hp : p ≠ pid := by
              intro hh
              rw [hh] at hm
              exact hcase ((hmaps_pid f hf).mp ⟨ii, hm⟩)
            exact ⟨p, ii, (hmapsE p ii f).mpr ⟨hp, hm⟩⟩
          · rintro ⟨p, ii, hm⟩
            exact ⟨p, ii, ((hmapsE p ii f).mp hm).2⟩
        · intro i hi hpr hne
          exact hcase ⟨i, hi, hpr, hne⟩
    · intro f p ii p' ii' hm1 hm2
      exact hinv.excl f p ii p' ii'
        ((hmapsE p ii f).mp hm1).2 ((hmapsE p' ii' f).mp hm2).2
    · show k.allocated_pages - (pages : Int) = _
      have hupd := sumUpTo_update (n := cfg.MAX_PROCESS_NUM)
        (f := fun p => if E.running.getD p false = true then
          pagesFor cfg.PAGE_SIZE (mdOf E p).size.toNat else 0)
        (g := fun p => if k.running.getD p false = true then
          pagesFor cfg.PAGE_SIZE (mdOf k p).size.toNat else 0)
        (j := pid) (by rw [← hinv.run_len]; exact hpidlt)
        (by
          intro q hq hqp
          show (if E.running.getD q false = true then
              pagesFor cfg.PAGE_SIZE (mdOf E q).size.toNat else 0) =
            (if k.running.getD q false = true then
              pagesFor cfg.PAGE_SIZE (mdOf k q).size.toNat else 0)
          rw [hrunE q, if_neg hqp, hmdE q, if_neg hqp])
      have hupd2 : sumUpTo (fun p => if E.running.getD p false = true then
            pagesFor cfg.PAGE_SIZE (mdOf E p).size.toNat else 0)
            cfg.MAX_PROCESS_NUM +
          (if k.running.getD pid false = true then
            pagesFor cfg.PAGE_SIZE (mdOf k pid).size.toNat else 0) =
        sumUpTo (fun p => if k.running.getD p false = true then
            pagesFor cfg.PAGE_SIZE (mdOf k p).size.toNat else 0)
            cfg.MAX_PROCESS_NUM +
          (if E.running.getD pid false = true then
            pagesFor cfg.PAGE_SIZE (mdOf E pid).size.toNat else 0) := hupd
      have hfpid : (if E.running.getD pid false = true then
          pagesFor cfg.PAGE_SIZE (mdOf E pid).size.toNat else 0) = 0 := by
        rw [hrunE pid, if_pos rfl]
        simp
      have hgpid : (if k.running.getD pid false = true then
          pagesFor cfg.PAGE_SIZE (mdOf k pid).size.toNat else 0) = pages := by
        rw [hrun, if_pos rfl]
      rw [hfpid, hgpid] at hupd2
      rw [hinv.alloc_sum]
      show _ = (sumUpTo (fun p => if E.running.getD p false = true then
          pagesFor cfg.PAGE_SIZE (mdOf E p).size.toNat else 0)
          cfg.MAX_PROCESS_NUM : Int)
      have heq2 : sumUpTo (fun p => if k.running.getD p false = true then
          pagesFor cfg.PAGE_SIZE (mdOf k p).size.toNat else 0)
          cfg.MAX_PROCESS_NUM =
        sumUpTo (fun p => if E.running.getD p false = true then
          pagesFor cfg.PAGE_SIZE (mdOf E p).size.toNat else 0)
          cfg.MAX_PROCESS_NUM + pages := by omega
      unfold sumPagesNat
      rw [heq2]
      push_cast
      ring
    · show k.allocated_pages - (pages : Int) ≤ _
      have := hinv.alloc_le
      have hp0 : (0 : Int) ≤ (pages : Int) := by positivity
      omega
    · show cntTrue (freeScan (ptOf k pid) pages k.occupied_pages) = _
      have hocc : ∀ i < pages, ((ptOf k pid).getD i dPTE).present = true →
          k.occupied_pages.getD ((ptOf k pid).getD i dPTE).PFN.toNat false = true := by
        intro i hi hpr
        have hl : i < (ptOf k pid).length := by rw [hptlen]; exact hi
        obtain ⟨f0, hf0lt, hf0⟩ := hinv.pfn_lt pid i hl hpr
        have htn : ((ptOf k pid).getD i dPTE).PFN.toNat = f0 := by
          show (pteOf k pid i).PFN.toNat = f0
          rw [hf0]
          simp
        rw [htn]
        rw [hinv.occ_maps f0 hf0lt]
        exact ⟨pid, i, hrun, hl, hpr, hf0⟩
      have hlen : ∀ i < pages, ((ptOf k pid).getD i dPTE).present = true →
          ((ptOf k pid).getD i dPTE).PFN.toNat < k.occupied_pages.length := by
        intro i hi hpr
        have hl : i < (ptOf k pid).length := by rw [hptlen]; exact hi
        obtain ⟨f0, hf0lt, hf0⟩ := hinv.pfn_lt pid i hl hpr
        have htn : ((ptOf k pid).getD i dPTE).PFN.toNat = f0 := by
          show (pteOf k pid i).PFN.toNat = f0
          rw [hf0]
          simp
        rw [htn, hinv.occ_len]
        exact hf0lt
      have hdist : ∀ i < pages, ∀ j < pages, i ≠ j →
          ((ptOf k pid).getD i dPTE).present = true →
          ((ptOf k pid).getD j dPTE).present = true →
          ((ptOf k pid).getD i dPTE).PFN.toNat ≠
            ((ptOf k pid).getD j dPTE).PFN.toNat := by
        intro i hi j hj hij hpi hpj heqn
        have hli : i < (ptOf k pid).length := by rw [hptlen]; exact hi
        have hlj : j < (ptOf k pid).length := by rw [hptlen]; exact hj
        obtain ⟨fi, hfilt, hfi⟩ := hinv.pfn_lt pid i hli hpi
        obtain ⟨fj, hfjlt, hfj⟩ := hinv.pfn_lt pid j hlj hpj
        have htni : ((ptOf k pid).getD i dPTE).PFN.toNat = fi := by
          show (pteOf k pid i).PFN.toNat = fi
          rw [hfi]
          simp
        have htnj : ((ptOf k pid).getD j dPTE).PFN.toNat = fj := by
          show (pteOf k pid j).PFN.toNat = fj
          rw [hfj]
          simp
        rw [htni, htnj] at heqn
        have hmi : MapsTo k pid i fi := ⟨hrun, hli, hpi, hfi⟩
        have hmj : MapsTo k pid j fi := ⟨hrun, hlj, hpj, by rw [hfj, heqn]⟩
        exact hij (hinv.excl fi pid i pid j hmi hmj).2
      have hcnt := freeScan_cnt hocc hlen hdist
      have hupd := sumUpTo_update (n := cfg.MAX_PROCESS_NUM)
        (f := fun p => presCnt (ptOf E p) (ptOf E p).length)
        (g := fun p => presCnt (ptOf k p) (ptOf k p).length)
        (j := pid) (by rw [← hinv.run_len]; exact hpidlt)
        (by
          intro q hq hqp
          show presCnt (ptOf E q) (ptOf E q).length =
            presCnt (ptOf k q) (ptOf k q).length
          rw [hptE q, if_neg hqp])
      have hupd2 : sumUpTo (fun p => presCnt (ptOf E p) (ptOf E p).length)
            cfg.MAX_PROCESS_NUM +
          presCnt (ptOf k pid) (ptOf k pid).length =
        sumUpTo (fun p => presCnt (ptOf k p) (ptOf k p).length)
            cfg.MAX_PROCESS_NUM +
          presCnt (ptOf E pid) (ptOf E pid).length := hupd
      have hEpid : presCnt (ptOf E pid) (ptOf E pid).length = 0 := by
        rw [hptE pid, if_pos rfl]
        exact presCnt_nil _
      have hkcnt := hinv.cnt_eq
      show _ = mappedCount cfg E
      unfold mappedCount at hkcnt ⊢
      rw [hEpid, hptlen] at hupd2
      omega

/-! ## The invariant holds in all reachable states -/

theorem init_kernel_inv (cfg : Config) : KInv cfg (init_kernel cfg) := by
  have hrun0 : ∀ p, (init_kernel cfg).running.getD p false = false := by
    intro p
    show (List.replicate cfg.MAX_PROCESS_NUM false).getD p false = false
    rw [getD_replicate' _ p false false]
    by_cases hp : p < cfg.MAX_PROCESS_NUM
    · rw [if_pos hp]
    · rw [if_neg hp]
  have hnorun : ∀ p, ¬IsRun (init_kernel cfg) p := by
    intro p hcon
    unfold IsRun at hcon
    rw [hrun0 p] at hcon
    cases hcon
  have hmd0 : ∀ p, mdOf (init_kernel cfg) p = dMM := by
    intro p
    show (List.replicate cfg.MAX_PROCESS_NUM dMM).getD p dMM = dMM
    rw [getD_replicate' _ p dMM dMM]
    by_cases hp : p < cfg.MAX_PROCESS_NUM
    · rw [if_pos hp]
    · rw [if_neg hp]
  have hpt0 : ∀ p, ptOf (init_kernel cfg) p = [] := by
    intro p
    unfold ptOf
    rw [hmd0 p]
    rfl
  have hocc0 : ∀ f, (init_kernel cfg).occupied_pages.getD f false = false := by
    intro f
    show (List.replicate (frameCount cfg) false).getD f false = false
    rw [getD_replicate' _ f false false]
    by_cases hp : f < frameCount cfg
    · rw [if_pos hp]
    · rw [if_neg hp]
  have hnomaps : ∀ p i f, ¬MapsTo (init_kernel cfg) p i f := by
    intro p i f hm
    exact hnorun p hm.1
  refine ⟨?_, ?_, ?_, ?_, ?_, ?_, ?_, ?_, ?_, ?_, ?_⟩
  · exact List.length_replicate _ _
  · exact List.length_replicate _ _
  · exact List.length_replicate _ _
  · intro p _
    exact hmd0 p
  · intro p hrun
    exact absurd hrun (hnorun p)
  · intro p i hl _
    exfalso
    rw [hpt0 p] at hl
    simp at hl
  · intro f hf
    rw [hocc0 f]
    constructor
    · intro hcon
      cases hcon
    · rintro ⟨p, i, hm⟩
      exact absurd hm (hnomaps p i f)
  · intro f p i p' i' hm1 _
    exact absurd hm1 (hnomaps p i f)
  · show (0 : Int) = _
    unfold sumPagesNat
    rw [sumUpTo_congr (g := fun _ => 0), sumUpTo_zero_fn]
    · rfl
    · intro p hp
      show (if (init_kernel cfg).running.getD p false = true then _ else 0) = 0
      rw [hrun0 p]
      simp
  · show (0 : Int) ≤ _
    positivity
  · show cntTrue (List.replicate (frameCount cfg) false) = _
    rw [cntTrue_replicate_false]
    unfold mappedCount
    rw [sumUpTo_congr (g := fun _ => 0), sumUpTo_zero_fn]
    intro p hp
    show presCnt (ptOf (init_kernel cfg) p) (ptOf (init_kernel cfg) p).length = 0
    rw [hpt0 p]
    exact presCnt_nil _

theorem vm_read_inv {cfg : Config} {k : Kernel} {pid : Nat} {addr size : Int}
    {buf : List Int} (hinv : KInv cfg k) :
    KInv cfg (vm_read cfg k pid addr size buf).1 := by
  by_cases h1 : size ≤ 0
  · rw [vm_read_bounds_fail (Or.inl h1)]
    exact hinv
  · by_cases h2 : addr < 0 ∨ addr ≥ (mdOf k pid).size
    · rw [vm_read_bounds_fail (by tauto)]
      exact hinv
    · by_cases h3 : addr + size > (mdOf k pid).size
      · rw [vm_read_bounds_fail (Or.inr (Or.inr (Or.inr h3)))]
        exact hinv
      · rw [vm_read_eq_loop h1 h2 h3]
        obtain ⟨hrun, hrange⟩ := vm_rw_range_ok hinv h1 h2 h3
        rw [(readLoop_eq_mapLoop cfg pid _ _ _ _ _ _ k buf 0).1]
        exact mapLoop_inv hinv (fun i hi => ⟨hrun, hrange i hi⟩)

theorem vm_write_inv {cfg : Config} {k : Kernel} {pid : Nat} {addr size : Int}
    {buf : List Int} (hinv : KInv cfg k) :
    KInv cfg (vm_write cfg k pid addr size buf).1 := by
  by_cases h1 : size ≤ 0
  · rw [vm_write_bounds_fail (Or.inl h1)]
    exact hinv
  · by_cases h2 : addr < 0 ∨ addr ≥ (mdOf k pid).size
    · rw [vm_write_bounds_fail (by tauto)]
      exact hinv
    · by_cases h3 : addr + size > (mdOf k pid).size
      · rw [vm_write_bounds_fail (Or.inr (Or.inr (Or.inr h3)))]
        exact hinv
      · rw [vm_write_eq_loop h1 h2 h3]
        obtain ⟨hrun, hrange⟩ := vm_rw_range_ok hinv h1 h2 h3
        have hbridge := (writeLoop_eq_mapLoop cfg pid
          (addr.toNat / cfg.PAGE_SIZE)
          ((addr.toNat + size.toNat - 1) / cfg.PAGE_SIZE)
          (addr.toNat % cfg.PAGE_SIZE)
          ((addr.toNat + size.toNat) % cfg.PAGE_SIZE) size.toNat buf
          (List.range' (addr.toNat / cfg.PAGE_SIZE)
            ((addr.toNat + size.toNat - 1) / cfg.PAGE_SIZE + 1 -
              addr.toNat / cfg.PAGE_SIZE)) k 0).1
        exact kinv_transfer hbridge
          (mapLoop_inv hinv (fun i hi => ⟨hrun, hrange i hi⟩))

theorem step_inv {cfg : Config} {k k' : Kernel} (hinv : KInv cfg k)
    (hs : Step cfg k k') : KInv cfg k' := by
  cases hs with
  | create size => exact proc_create_vm_inv hinv
  | exit pid => exact proc_exit_vm_inv hinv
  | read pid addr len buf => exact vm_read_inv hinv
  | write pid addr len buf => exact vm_write_inv hinv

theorem reachable_inv {cfg : Config} {k : Kernel} (h : Reachable cfg k) :
    KInv cfg k := by
  induction h with
  | init => exact init_kernel_inv cfg
  | step _ hs ih => exact step_inv ih hs

/-! ## Claim theorems -/

/-- Claim C2: for every kernel state, pid, and arguments with `len <= 0`,
`addr < 0`, `addr >= size`, or `addr + len > size` (the process's size),
`vm_read` and `vm_write` fail with `OutOfBounds` and leave the entire kernel
state (page tables, frame occupancy, allocated page count, physical space)
unchanged: both return the input state `k` itself. -/
theorem bounds_rejection {cfg : Config} {k : Kernel} {pid : Nat}
    {addr len : Int} (buf bufw : List Int)
    (h : len ≤ 0 ∨ addr < 0 ∨ addr ≥ (mdOf k pid).size ∨
      addr + len > (mdOf k pid).size) :
    vm_read cfg k pid addr len buf = (k, .error .OutOfBounds) ∧
    vm_write cfg k pid addr len bufw = (k, .error .OutOfBounds) :=
  ⟨vm_read_bounds_fail h, vm_write_bounds_fail h⟩

/-- Witness for C2 at a concrete input: reading 0 bytes from the fresh
kernel is rejected without mutation. -/
theorem bounds_rejection_witness :
    vm_read cW kW0 0 0 0 [] = (kW0, .error .OutOfBounds) ∧
    vm_write cW kW0 0 0 0 [] = (kW0, .error .OutOfBounds) :=
  bounds_rejection [] [] (Or.inl (by decide))

/-- Claim C3: in every state reachable by any sequence of `proc_create_vm`,
`proc_exit_vm`, `vm_read`, and `vm_write` calls from the initial kernel
state, no physical frame is referenced as present by two page-table entries
simultaneously (across all running processes), and a frame is marked
occupied iff exactly one present page-table entry of a running process maps
to it. -/
theorem frame_exclusivity {cfg : Config} {k : Kernel}
    (hreach : Reachable cfg k) :
    (∀ f p i p' i', MapsTo k p i f → MapsTo k p' i' f → p = p' ∧ i = i') ∧
    (∀ f, f < frameCount cfg →
      (k.occupied_pages.getD f false = true ↔
        ∃! pq : Nat × Nat, MapsTo k pq.1 pq.2 f)) := by
  have hinv := reachable_inv hreach
  refine ⟨hinv.excl, ?_⟩
  intro f hf
  rw [hinv.occ_maps f hf]
  constructor
  · rintro ⟨p, i, hm⟩
    refine ⟨(p, i), hm, ?_⟩
    rintro ⟨p', i'⟩ hm'
    have hpe := hinv.excl f p' i' p i hm' hm
    rw [Prod.ext_iff]
    exact hpe
  · rintro ⟨⟨p, i⟩, hm, _⟩
    exact ⟨p, i, hm⟩

/-- Witness for C3 at the initial state of the concrete configuration. -/
theorem frame_exclusivity_witness :
    (∀ f p i p' i', MapsTo (init_kernel cW) p i f →
      MapsTo (init_kernel cW) p' i' f → p = p' ∧ i = i') ∧
    (∀ f, f < frameCount cW →
      ((init_kernel cW).occupied_pages.getD f false = true ↔
        ∃! pq : Nat × Nat, MapsTo (init_kernel cW) pq.1 pq.2 f)) :=
  frame_exclusivity Reachable.init

theorem reachableCE_alloc_le {cfg : Config} {k : Kernel}
    (h : ReachableCE cfg k) :
    k.allocated_pages ≤ (frameCount cfg : Int) := by
  induction h with
  | init =>
    show (0 : Int) ≤ _
    positivity
  | step hprev hs ih =>
    rename_i k1 k2
    cases hs with
    | create size =>
      rcases create_cases cfg k1 size with ⟨_, hkeq⟩ | ⟨pid, h3, h1, h2, heq⟩
      · rw [hkeq]
        exact ih
      · rw [heq]
        show _ + _ ≤ _
        omega
    | exit pid =>
      by_cases hr : k1.running.getD pid false = false
      · rw [exit_notRunning hr]
        exact ih
      · have hrun : k1.running.getD pid false = true := by
          cases hx : k1.running.getD pid false
          · exact absurd hx hr
          · rfl
        rw [exit_ok hrun]
        show k1.allocated_pages - _ ≤ _
        have hp0 : (0 : Int) ≤
            (pagesFor cfg.PAGE_SIZE (mdOf k1 pid).size.toNat : Int) := by
          positivity
        omega

/-- Claim C4: in every state reachable by any sequence of `proc_create_vm`
and `proc_exit_vm` calls from the initial kernel state, `allocated_pages`
never exceeds `KERNEL_SPACE_SIZE / PAGE_SIZE`, and `proc_create_vm` fails
whenever admitting `(size-1)/PAGE_SIZE + 1` more pages (the code's
ceiling computation) would exceed that bound. -/
theorem admission_invariant {cfg : Config} {k : Kernel}
    (h : ReachableCE cfg k) :
    k.allocated_pages ≤ (frameCount cfg : Int) ∧
    ∀ size : Int,
      k.allocated_pages + (pagesFor cfg.PAGE_SIZE size.toNat : Int) >
        (frameCount cfg : Int) →
      ∃ e, (proc_create_vm cfg k size).2 = .error e := by
  refine ⟨reachableCE_alloc_le h, ?_⟩
  intro size hover
  by_cases h1 : size ≤ 0 ∨ size > (cfg.VIRTUAL_SPACE_SIZE : Int)
  · rw [create_invalid h1]
    exact ⟨_, rfl⟩
  · rw [create_nomem h1 hover]
    exact ⟨_, rfl⟩

/-- Witness for C4 at the initial state of the concrete configuration. -/
theorem admission_invariant_witness :
    (init_kernel cW).allocated_pages ≤ (frameCount cW : Int) ∧
    ∀ size : Int,
      (init_kernel cW).allocated_pages +
          (pagesFor cW.PAGE_SIZE size.toNat : Int) > (frameCount cW : Int) →
      ∃ e, (proc_create_vm cW (init_kernel cW) size).2 = .error e :=
  admission_invariant ReachableCE.init

/-- Claim C5: whenever `proc_create_vm` succeeds returning `pid`, that slot
was the lowest-numbered free one, its new page table has exactly
`ceil(size/PAGE_SIZE)` entries all `{PFN := -1, present := false}`,
`allocated_pages` grows by that page count, the slot is marked running, and
the frame occupancy array and physical space are untouched.  The two
structural hypotheses record that the `running` and `mm` arrays have their
declared C length `MAX_PROCESS_NUM`. -/
theorem create_success_post {cfg : Config} {k : Kernel} {size : Int}
    {pid : Nat} (hrl : k.running.length = cfg.MAX_PROCESS_NUM)
    (hml : k.mm.length = cfg.MAX_PROCESS_NUM)
    (h : (proc_create_vm cfg k size).2 = .ok pid) :
    (k.running.getD pid false = false ∧
      ∀ j < pid, k.running.getD j false = true) ∧
    (mdOf (proc_create_vm cfg k size).1 pid).page_table =
      some (List.replicate (pagesFor cfg.PAGE_SIZE size.toNat) ⟨-1, false⟩) ∧
    (0 < cfg.PAGE_SIZE →
      pagesFor cfg.PAGE_SIZE size.toNat =
        (size.toNat + cfg.PAGE_SIZE - 1) / cfg.PAGE_SIZE) ∧
    (proc_create_vm cfg k size).1.allocated_pages =
      k.allocated_pages + (pagesFor cfg.PAGE_SIZE size.toNat : Int) ∧
    (proc_create_vm cfg k size).1.running.getD pid false = true ∧
    (proc_create_vm cfg k size).1.occupied_pages = k.occupied_pages ∧
    (proc_create_vm cfg k size).1.space = k.space := by
  rcases create_cases cfg k size with
    ⟨⟨e, h2e⟩, _⟩ | ⟨pid', h3, h1, h2, heq⟩
  · rw [h2e] at h
    exact Except.noConfusion h
  · have hpe : pid' = pid := by
      rw [heq] at h
      injection h
    rw [hpe] at heq h3
    obtain ⟨hlt, hfree, hleast⟩ := firstFree_some h3
    have hpidmm : pid < k.mm.length := by
      rw [hml, ← hrl]
      exact hlt
    push_neg at h1
    refine ⟨⟨hfree, hleast⟩, ?_, ?_, ?_, ?_, ?_, ?_⟩
    · rw [heq]
      rw [mdOf_of_mm_eq rfl pid, if_pos ⟨rfl, hpidmm⟩]
      rfl
    · intro hP
      have hn1 : 1 ≤ size.toNat := by omega
      unfold pagesFor
      rw [show size.toNat + cfg.PAGE_SIZE - 1 = (size.toNat - 1) + cfg.PAGE_SIZE
        from by omega]
      rw [Nat.add_div_right _ hP]
    · rw [heq]
    · rw [heq]
      show (k.running.set pid true).getD pid false = true
      rw [getD_set_self _ _ _ _ hlt]
    · rw [heq]
    · rw [heq]

/-- Witness for C5: creating a 16-byte process in the fresh concrete kernel
returns slot 0 with a two-entry unmapped page table. -/
theorem create_success_post_witness :
    (kW0.running.getD 0 false = false ∧
      ∀ j < 0, kW0.running.getD j false = true) ∧
    (mdOf (proc_create_vm cW kW0 16).1 0).page_table =
      some (List.replicate (pagesFor cW.PAGE_SIZE (16 : Int).toNat) ⟨-1, false⟩) ∧
    (0 < cW.PAGE_SIZE →
      pagesFor cW.PAGE_SIZE (16 : Int).toNat =
        ((16 : Int).toNat + cW.PAGE_SIZE - 1) / cW.PAGE_SIZE) ∧
    (proc_create_vm cW kW0 16).1.allocated_pages =
      kW0.allocated_pages + (pagesFor cW.PAGE_SIZE (16 : Int).toNat : Int) ∧
    (proc_create_vm cW kW0 16).1.running.getD 0 false = true ∧
    (proc_create_vm cW kW0 16).1.occupied_pages = kW0.occupied_pages ∧
    (proc_create_vm cW kW0 16).1.space = kW0.space :=
  create_success_post (by decide) (by decide) rfl

/-- Claim C10: whenever `proc_create_vm` fails — for any of its three
failure causes — it returns the input kernel state unchanged (no slot
claimed, no page table allocated, `allocated_pages`, `running` and the
memory descriptors exactly as before). -/
theorem create_failure_atomic {cfg : Config} {k : Kernel} {size : Int}
    (e : VmError) (he : (proc_create_vm cfg k size).2 = .error e) :
    (proc_create_vm cfg k size).1 = k := by
  rcases create_cases cfg k size with
    ⟨_, hkeq⟩ | ⟨pid, _, _, _, heq⟩
  · exact hkeq
  · rw [heq] at he
    exact Except.noConfusion he

/-- Witness for C10: an invalid-size creation leaves the concrete kernel
untouched. -/
theorem create_failure_atomic_witness : (proc_create_vm cW kW0 0).1 = kW0 :=
  create_failure_atomic .InvalidSize rfl

/-- Counterexample to claim C9: two `proc_create_vm` calls failing for
different reasons (`InvalidSize` for a non-positive size versus
`NoFreeProcessSlot` with every slot taken) return the identical C value
`-1` — the returned `int` does not distinguish the failure kinds. -/
theorem error_kinds_collapse_counterexample :
    (proc_create_vm cW kW0 0).2 = .error .InvalidSize ∧
    (proc_create_vm cW kWfull 8).2 = .error .NoFreeProcessSlot ∧
    .error .InvalidSize ≠ (.error .NoFreeProcessSlot : Except VmError Nat) ∧
    cRetPid (proc_create_vm cW kW0 0).2 =
      cRetPid (proc_create_vm cW kWfull 8).2 :=
  ⟨rfl, rfl, by decide, rfl⟩

/-- Claim C9 (amended): every fallible operation's C return value
distinguishes success from failure — `proc_create_vm` returns the
non-negative pid on success and `-1` on failure, the other three return `0`
on success and `-1` on failure — but all six error kinds collapse to the
same value `-1`, so two calls failing for different reasons are *not*
distinguishable by the returned value. -/
theorem c_return_value_discrimination (cfg : Config) (k : Kernel)
    (size addr len : Int) (pid : Nat) (buf : List Int) :
    ((∃ e, (proc_create_vm cfg k size).2 = .error e) ↔
      cRetPid (proc_create_vm cfg k size).2 = -1) ∧
    ((∃ p, (proc_create_vm cfg k size).2 = .ok p) ↔
      0 ≤ cRetPid (proc_create_vm cfg k size).2) ∧
    ((∃ e, (proc_exit_vm cfg k pid).2 = .error e) ↔
      cRet (proc_exit_vm cfg k pid).2 = -1) ∧
    (((proc_exit_vm cfg k pid).2 = .ok ()) ↔
      cRet (proc_exit_vm cfg k pid).2 = 0) ∧
    ((∃ e, (vm_read cfg k pid addr len buf).2 = .error e) ↔
      cRet (vm_read cfg k pid addr len buf).2 = -1) ∧
    ((∃ out, (vm_read cfg k pid addr len buf).2 = .ok out) ↔
      cRet (vm_read cfg k pid addr len buf).2 = 0) ∧
    ((∃ e, (vm_write cfg k pid addr len buf).2 = .error e) ↔
      cRet (vm_write cfg k pid addr len buf).2 = -1) ∧
    (((vm_write cfg k pid addr len buf).2 = .ok ()) ↔
      cRet (vm_write cfg k pid addr len buf).2 = 0) ∧
    (∀ e e' : VmError, cRet (.error e : Except VmError Unit) =
      cRet (.error e' : Except VmError Unit)) := by
  refine ⟨?_, ?_, ?_, ?_, ?_, ?_, ?_, ?_, fun e e' => rfl⟩
  · cases hx : (proc_create_vm cfg k size).2 with
    | error e => simp [cRetPid]
    | ok p =>
      simp only [cRetPid]
      constructor
      · rintro ⟨e, he⟩
        exact Except.noConfusion he
      · intro hc
        omega
  · cases hx : (proc_create_vm cfg k size).2 with
    | error e =>
      simp only [cRetPid]
      constructor
      · rintro ⟨p, hp⟩
        exact Except.noConfusion hp
      · intro hc
        omega
    | ok p => simp [cRetPid]
  · cases hx : (proc_exit_vm cfg k pid).2 with
    | error e => simp [cRet]
    | ok v =>
      simp only [cRet]
      constructor
      · rintro ⟨e, he⟩
        exact Except.noConfusion he
      · intro hc
        omega
  · cases hx : (proc_exit_vm cfg k pid).2 with
    | error e =>
      simp only [cRet]
      constructor
      · intro hp
        exact Except.noConfusion hp
      · intro hc
        omega
    | ok v => simp [cRet]
  · cases hx : (vm_read cfg k pid addr len buf).2 with
    | error e => simp [cRet]
    | ok v =>
      simp only [cRet]
      constructor
      · rintro ⟨e, he⟩
        exact Except.noConfusion he
      · intro hc
        omega
  · cases hx : (vm_read cfg k pid addr len buf).2 with
    | error e =>
      simp only [cRet]
      constructor
      · rintro ⟨o, ho⟩
        exact Except.noConfusion ho
      · intro hc
        omega
    | ok v => simp [cRet]
  · cases hx : (vm_write cfg k pid addr len buf).2 with
    | error e => simp [cRet]
    | ok v =>
      simp only [cRet]
      constructor
      · rintro ⟨e, he⟩
        exact Except.noConfusion he
      · intro hc
        omega
  · cases hx : (vm_write cfg k pid addr len buf).2 with
    | error e =>
      simp only [cRet]
      constructor
      · intro hp
        exact Except.noConfusion hp
      · intro hc
        omega
    | ok v => simp [cRet]

/-- Claim C1 (code bug): writing a buffer of sevens to the full two-page
range `[0, 16)` and reading it back does not return byte-identical content:
because `end_offset = (addr+len) % PAGE_SIZE = 0`, the final page of a
multi-page transfer copies zero bytes, so byte 8 reads back as 0 instead of
7.  Both calls nevertheless report success. -/
theorem roundtrip_eo_zero_bug :
    (vm_write cW kW1 0 0 16 (List.replicate 16 7)).2 = .ok () ∧
    (vm_read cW kW2 0 0 16 (List.replicate 16 0)).2 =
      .ok (List.replicate 8 (7 : Int) ++ List.replicate 8 0) ∧
    (List.replicate 8 (7 : Int) ++ List.replicate 8 0).getD 8 0 = 0 ∧
    (List.replicate 16 (7 : Int)).getD 8 0 = 7 := by
  refine ⟨rfl, rfl, by decide, by decide⟩

/-- Counterexample to claim C6 as stated: after a process exits, a
subsequent `vm_read`/`vm_write` on its pid does *not* fail with
`NotRunning` — the code never consults the running flag there; the call
fails the bounds check against the reset size 0, i.e. with `OutOfBounds`. -/
theorem exit_then_rw_counterexample :
    (vm_read cW kWexit 0 0 1 [0]).2 = .error .OutOfBounds ∧
    (vm_read cW kWexit 0 0 1 [0]).2 ≠ .error .NotRunning ∧
    (vm_write cW kWexit 0 0 1 [0]).2 = .error .OutOfBounds ∧
    (vm_write cW kWexit 0 0 1 [0]).2 ≠ .error .NotRunning :=
  ⟨rfl, by decide, rfl, by decide⟩

/-- Claim C6 (amended): for every running process `pid` (with its page
table present and of the computed length), `proc_exit_vm` succeeds,
decreases `allocated_pages` by exactly `ceil(size/PAGE_SIZE)`, marks every
frame that was present in its page table as unoccupied, resets its size to
0 and clears the running flag; a second `proc_exit_vm` fails with
`NotRunning`, while `vm_read`/`vm_write` on the exited pid also fail — but
with `OutOfBounds` (the bounds check against size 0), not `NotRunning` —
and leave the state unchanged. -/
theorem teardown_post {cfg : Config} {k : Kernel} {pid : Nat} {pt : List PTE}
    (h1 : k.running.getD pid false = true)
    (h2 : (mdOf k pid).page_table = some pt)
    (h3 : pt.length = pagesFor cfg.PAGE_SIZE (mdOf k pid).size.toNat) :
    (proc_exit_vm cfg k pid).2 = .ok () ∧
    (proc_exit_vm cfg k pid).1.allocated_pages =
      k.allocated_pages -
        (pagesFor cfg.PAGE_SIZE (mdOf k pid).size.toNat : Int) ∧
    (∀ i < pt.length, (pt.getD i dPTE).present = true →
      (proc_exit_vm cfg k pid).1.occupied_pages.getD
        (pt.getD i dPTE).PFN.toNat false = false) ∧
    (mdOf (proc_exit_vm cfg k pid).1 pid).size = 0 ∧
    (proc_exit_vm cfg k pid).1.running.getD pid false = false ∧
    (proc_exit_vm cfg (proc_exit_vm cfg k pid).1 pid).2 = .error .NotRunning ∧
    (∀ addr len buf, vm_read cfg (proc_exit_vm cfg k pid).1 pid addr len buf =
      ((proc_exit_vm cfg k pid).1, .error .OutOfBounds)) ∧
    (∀ addr len buf, vm_write cfg (proc_exit_vm cfg k pid).1 pid addr len buf =
      ((proc_exit_vm cfg k pid).1, .error .OutOfBounds)) := by
  have hpidrun : pid < k.running.length := isRun_lt h1
  have hpidmm : pid < k.mm.length := by
    by_contra hc
    unfold mdOf at h2
    rw [List.getD_eq_default _ _ (by omega)] at h2
    exact Option.noConfusion h2
  have hpteq : ptOf k pid = pt := by
    unfold ptOf
    rw [h2]
    rfl
  rw [exit_ok h1]
  have hd : (mdOf ({ k with
      occupied_pages := freeScan (ptOf k pid)
        (pagesFor cfg.PAGE_SIZE (mdOf k pid).size.toNat) k.occupied_pages
      mm := k.mm.set pid dMM
      allocated_pages := k.allocated_pages -
        (pagesFor cfg.PAGE_SIZE (mdOf k pid).size.toNat : Int)
      running := k.running.set pid false } : Kernel) pid).size = 0 := by
    rw [mdOf_of_mm_eq rfl pid, if_pos ⟨rfl, hpidmm⟩]
    rfl
  have hrr : ({ k with
      occupied_pages := freeScan (ptOf k pid)
        (pagesFor cfg.PAGE_SIZE (mdOf k pid).size.toNat) k.occupied_pages
      mm := k.mm.set pid dMM
      allocated_pages := k.allocated_pages -
        (pagesFor cfg.PAGE_SIZE (mdOf k pid).size.toNat : Int)
      running := k.running.set pid false } : Kernel).running.getD pid false =
      false := by
    show (k.running.set pid false).getD pid false = false
    rw [getD_set_self _ _ _ _ hpidrun]
  refine ⟨rfl, rfl, ?_, hd, hrr, ?_, ?_, ?_⟩
  · intro i hi hpr
    show (freeScan (ptOf k pid)
      (pagesFor cfg.PAGE_SIZE (mdOf k pid).size.toNat)
      k.occupied_pages).getD (pt.getD i dPTE).PFN.toNat false = false
    rw [hpteq]
    exact freeScan_frees ⟨i, h3 ▸ hi, hpr, rfl⟩
  · rw [exit_notRunning hrr]
  · intro addr len buf
    apply vm_read_bounds_fail
    rw [hd]
    omega
  · intro addr len buf
    apply vm_write_bounds_fail
    rw [hd]
    omega

/-- Witness for C6 (amended) at a concrete input: create an 8-byte process
in the fresh concrete kernel and tear it down. -/
theorem teardown_post_witness :
    (proc_exit_vm cW (proc_create_vm cW kW0 8).1 0).2 = .ok () ∧
    (proc_exit_vm cW (proc_create_vm cW kW0 8).1 0).1.allocated_pages =
      (proc_create_vm cW kW0 8).1.allocated_pages -
        (pagesFor cW.PAGE_SIZE (mdOf (proc_create_vm cW kW0 8).1 0).size.toNat : Int) ∧
    (∀ i < (List.replicate 1 dPTE).length,
      ((List.replicate 1 dPTE).getD i dPTE).present = true →
      (proc_exit_vm cW (proc_create_vm cW kW0 8).1 0).1.occupied_pages.getD
        ((List.replicate 1 dPTE).getD i dPTE).PFN.toNat false = false) ∧
    (mdOf (proc_exit_vm cW (proc_create_vm cW kW0 8).1 0).1 0).size = 0 ∧
    (proc_exit_vm cW (proc_create_vm cW kW0 8).1 0).1.running.getD 0 false =
      false ∧
    (proc_exit_vm cW
      (proc_exit_vm cW (proc_create_vm cW kW0 8).1 0).1 0).2 =
      .error .NotRunning ∧
    (∀ addr len buf, vm_read cW
      (proc_exit_vm cW (proc_create_vm cW kW0 8).1 0).1 0 addr len buf =
      ((proc_exit_vm cW (proc_create_vm cW kW0 8).1 0).1,
        .error .OutOfBounds)) ∧
    (∀ addr len buf, vm_write cW
      (proc_exit_vm cW (proc_create_vm cW kW0 8).1 0).1 0 addr len buf =
      ((proc_exit_vm cW (proc_create_vm cW kW0 8).1 0).1,
        .error .OutOfBounds)) :=
  teardown_post rfl rfl (by decide)

theorem extends_of_eqExceptSpace {k k2 k3 : Kernel} (he : EqExceptSpace k2 k3)
    (hx : Extends k k3) : Extends k k2 := by
  obtain ⟨ho, hr, hm, ha⟩ := he
  obtain ⟨x1, x2, x3, x4, x5, x6, x7⟩ := hx
  have hmd : ∀ p, mdOf k2 p = mdOf k3 p := by
    intro p
    unfold mdOf
    rw [hm]
  have hpt : ∀ p, ptOf k2 p = ptOf k3 p := by
    intro p
    unfold ptOf
    rw [hmd]
  have hpte : ∀ p i, pteOf k2 p i = pteOf k3 p i := by
    intro p i
    unfold pteOf
    rw [hpt]
  refine ⟨hr.trans x1, ha.trans x2, ?_, ?_, ?_, ?_, ?_⟩
  · intro p
    rw [hmd]
    exact x3 p
  · intro p
    rw [hpt]
    exact x4 p
  · intro p ii hp
    rw [hpte]
    exact x5 p ii hp
  · intro f hf
    rw [ho]
    exact x6 f hf
  · rw [ho]
    exact x7

theorem vm_read_extends (cfg : Config) (k : Kernel) (pid : Nat)
    (addr len : Int) (buf : List Int) :
    Extends k (vm_read cfg k pid addr len buf).1 := by
  by_cases h1 : len ≤ 0
  · rw [vm_read_bounds_fail (Or.inl h1)]
    exact extends_rfl k
  · by_cases h2 : addr < 0 ∨ addr ≥ (mdOf k pid).size
    · rw [vm_read_bounds_fail (by tauto)]
      exact extends_rfl k
    · by_cases h3 : addr + len > (mdOf k pid).size
      · rw [vm_read_bounds_fail (Or.inr (Or.inr (Or.inr h3)))]
        exact extends_rfl k
      · rw [vm_read_eq_loop h1 h2 h3]
        rw [(readLoop_eq_mapLoop cfg pid _ _ _ _ _ _ k buf 0).1]
        exact mapLoop_extends pid _ k

theorem vm_write_extends (cfg : Config) (k : Kernel) (pid : Nat)
    (addr len : Int) (buf : List Int) :
    Extends k (vm_write cfg k pid addr len buf).1 := by
  by_cases h1 : len ≤ 0
  · rw [vm_write_bounds_fail (Or.inl h1)]
    exact extends_rfl k
  · by_cases h2 : addr < 0 ∨ addr ≥ (mdOf k pid).size
    · rw [vm_write_bounds_fail (by tauto)]
      exact extends_rfl k
    · by_cases h3 : addr + len > (mdOf k pid).size
      · rw [vm_write_bounds_fail (Or.inr (Or.inr (Or.inr h3)))]
        exact extends_rfl k
      · rw [vm_write_eq_loop h1 h2 h3]
        exact extends_of_eqExceptSpace
          (writeLoop_eq_mapLoop cfg pid
            (addr.toNat / cfg.PAGE_SIZE)
            ((addr.toNat + len.toNat - 1) / cfg.PAGE_SIZE)
            (addr.toNat % cfg.PAGE_SIZE)
            ((addr.toNat + len.toNat) % cfg.PAGE_SIZE) len.toNat buf
            (List.range' (addr.toNat / cfg.PAGE_SIZE)
              ((addr.toNat + len.toNat - 1) / cfg.PAGE_SIZE + 1 -
                addr.toNat / cfg.PAGE_SIZE)) k 0).1
          (mapLoop_extends pid _ k)

/-- Claim C8: (1) the first-fit scan claims the lowest-indexed unoccupied
frame (everything below it is occupied); (2) mapping an unmapped page marks
that frame occupied and stores it in the entry; (3) when no frame is free,
the read/write page loop returns immediately with `NoFreeFrame` and the
kernel state accumulated so far — pages mapped earlier in the same call are
exactly the ones in that state, with no rollback; (4) across a whole
`vm_read`/`vm_write` call, mappings and occupations are never revoked. -/
theorem first_fit_no_rollback :
    (∀ (occ : List Bool) (j : Nat), firstFree occ = some j →
      occ.getD j false = false ∧ ∀ i < j, occ.getD i false = true) ∧
    (∀ (k : Kernel) (pid i j : Nat), (pteOf k pid i).present = false →
      firstFree k.occupied_pages = some j →
      mapPage k pid i = some
        ({ k with
            occupied_pages := k.occupied_pages.set j true
            mm := k.mm.set pid
              { mdOf k pid with
                  page_table := some ((ptOf k pid).set i ⟨(j : Int), true⟩) } },
          j)) ∧
    (∀ (cfg : Config) (pid sPg ePg so eo n i : Nat) (rest : List Nat)
      (k : Kernel) (buf : List Int) (curr : Nat),
      (pteOf k pid i).present = false →
      firstFree k.occupied_pages = none →
      readLoop cfg pid sPg ePg so eo n (i :: rest) k buf curr =
        (k, .error .NoFreeFrame) ∧
      writeLoop cfg pid sPg ePg so eo n buf (i :: rest) k curr =
        (k, .error .NoFreeFrame)) ∧
    (∀ (cfg : Config) (k : Kernel) (pid : Nat) (addr len : Int)
      (buf : List Int),
      (∀ p ii, (pteOf k p ii).present = true →
        pteOf (vm_read cfg k pid addr len buf).1 p ii = pteOf k p ii) ∧
      (∀ f, k.occupied_pages.getD f false = true →
        (vm_read cfg k pid addr len buf).1.occupied_pages.getD f false = true) ∧
      (∀ p ii, (pteOf k p ii).present = true →
        pteOf (vm_write cfg k pid addr len buf).1 p ii = pteOf k p ii) ∧
      (∀ f, k.occupied_pages.getD f false = true →
        (vm_write cfg k pid addr len buf).1.occupied_pages.getD f false =
          true)) := by
  refine ⟨?_, ?_, ?_, ?_⟩
  · intro occ j hff
    obtain ⟨_, h2, h3⟩ := firstFree_some hff
    exact ⟨h2, h3⟩
  · intro k pid i j hnp hff
    exact mapPage_alloc hnp hff
  · intro cfg pid sPg ePg so eo n i rest k buf curr hnp hff
    exact ⟨readLoop_cons_none (mapPage_noFrame hnp hff),
      writeLoop_cons_none (mapPage_noFrame hnp hff)⟩
  · intro cfg k pid addr len buf
    have hr := vm_read_extends cfg k pid addr len buf
    have hw := vm_write_extends cfg k pid addr len buf
    exact ⟨hr.2.2.2.2.1, hr.2.2.2.2.2.1, hw.2.2.2.2.1, hw.2.2.2.2.2.1⟩

/-- Witness for C8: the scan over `[true, false]` claims index 1 (index 0
is occupied), and with every frame of a one-frame kernel occupied the read
loop on an unmapped page fails with `NoFreeFrame` returning the state
unchanged. -/
theorem first_fit_no_rollback_witness :
    ((List.cons true [false]).getD 1 false = false) ∧
    readLoop cW 0 0 0 0 0 1 [0]
      ⟨List.replicate 8 0, [true], [true],
        [⟨8, some (List.replicate 1 dPTE)⟩], 1⟩ [0] 0 =
      (⟨List.replicate 8 0, [true], [true],
        [⟨8, some (List.replicate 1 dPTE)⟩], 1⟩, .error .NoFreeFrame) :=
  ⟨(first_fit_no_rollback.1 [true, false] 1 rfl).1,
    (first_fit_no_rollback.2.2.1 cW 0 0 0 0 0 1 0 []
      ⟨List.replicate 8 0, [true], [true],
        [⟨8, some (List.replicate 1 dPTE)⟩], 1⟩ [0] 0 rfl rfl).1⟩

/-- Claim C7: in any reachable state, for a running process and a valid,
previously unmapped range, the first `vm_read` succeeds and maps every page
of the range (possible because the admission bound keeps a free frame
available for every unmapped page of a running process), and a second
`vm_read` of the same range returns the kernel state — page-table entries
and frame occupancy included — exactly as the first call left it: the range
is mapped exactly once. -/
theorem lazy_mapping_idempotent {cfg : Config} {k : Kernel} {pid : Nat}
    {addr len : Int} (buf : List Int) (hreach : Reachable cfg k)
    (hrun : IsRun k pid) (h1 : 0 < len) (h2 : 0 ≤ addr)
    (h3 : addr + len ≤ (mdOf k pid).size)
    (_hunmapped : ∀ i ∈ List.range' (addr.toNat / cfg.PAGE_SIZE)
        ((addr.toNat + len.toNat - 1) / cfg.PAGE_SIZE + 1 -
          addr.toNat / cfg.PAGE_SIZE),
      (pteOf k pid i).present = false) :
    (∃ out, (vm_read cfg k pid addr len buf).2 = .ok out) ∧
    (∀ i ∈ List.range' (addr.toNat / cfg.PAGE_SIZE)
        ((addr.toNat + len.toNat - 1) / cfg.PAGE_SIZE + 1 -
          addr.toNat / cfg.PAGE_SIZE),
      (pteOf (vm_read cfg k pid addr len buf).1 pid i).present = true) ∧
    (∀ buf2, (vm_read cfg (vm_read cfg k pid addr len buf).1 pid addr len
      buf2).1 = (vm_read cfg k pid addr len buf).1) := by
  have hinv := reachable_inv hreach
  have h1' : ¬len ≤ 0 := by omega
  have hsz : addr < (mdOf k pid).size := by omega
  have h2' : ¬(addr < 0 ∨ addr ≥ (mdOf k pid).size) := by
    push_neg
    exact ⟨h2, hsz⟩
  have h3' : ¬(addr + len > (mdOf k pid).size) := by omega
  obtain ⟨hrun', hrange⟩ := vm_rw_range_ok hinv h1' h2' h3'
  have hbridge := readLoop_eq_mapLoop cfg pid (addr.toNat / cfg.PAGE_SIZE)
    ((addr.toNat + len.toNat - 1) / cfg.PAGE_SIZE)
    (addr.toNat % cfg.PAGE_SIZE) ((addr.toNat + len.toNat) % cfg.PAGE_SIZE)
    len.toNat
    (List.range' (addr.toNat / cfg.PAGE_SIZE)
      ((addr.toNat + len.toNat - 1) / cfg.PAGE_SIZE + 1 -
        addr.toNat / cfg.PAGE_SIZE)) k buf 0
  have hsucc := mapLoop_success (l := List.range' (addr.toNat / cfg.PAGE_SIZE)
      ((addr.toNat + len.toNat - 1) / cfg.PAGE_SIZE + 1 -
        addr.toNat / cfg.PAGE_SIZE)) hinv hrun hrange
  rw [vm_read_eq_loop h1' h2' h3']
  have hk1 : (readLoop cfg pid (addr.toNat / cfg.PAGE_SIZE)
      ((addr.toNat + len.toNat - 1) / cfg.PAGE_SIZE)
      (addr.toNat % cfg.PAGE_SIZE) ((addr.toNat + len.toNat) % cfg.PAGE_SIZE)
      len.toNat
      (List.range' (addr.toNat / cfg.PAGE_SIZE)
        ((addr.toNat + len.toNat - 1) / cfg.PAGE_SIZE + 1 -
          addr.toNat / cfg.PAGE_SIZE)) k buf 0).1 =
      (mapLoop pid (List.range' (addr.toNat / cfg.PAGE_SIZE)
        ((addr.toNat + len.toNat - 1) / cfg.PAGE_SIZE + 1 -
          addr.toNat / cfg.PAGE_SIZE)) k).1 := hbridge.1
  refine ⟨?_, ?_, ?_⟩
  · rcases hbridge.2 with ⟨_, hout⟩ | ⟨hfalse, _⟩
    · exact hout
    · rw [hsucc.1] at hfalse
      cases hfalse
  · intro i hi
    rw [hk1]
    exact hsucc.2.2 i hi
  · intro buf2
    rw [hk1]
    have hext := mapLoop_extends pid (List.range' (addr.toNat / cfg.PAGE_SIZE)
      ((addr.toNat + len.toNat - 1) / cfg.PAGE_SIZE + 1 -
        addr.toNat / cfg.PAGE_SIZE)) k
    have hszeq : (mdOf (mapLoop pid (List.range' (addr.toNat / cfg.PAGE_SIZE)
        ((addr.toNat + len.toNat - 1) / cfg.PAGE_SIZE + 1 -
          addr.toNat / cfg.PAGE_SIZE)) k).1 pid).size = (mdOf k pid).size :=
      hext.2.2.1 pid
    have h2'' : ¬(addr < 0 ∨ addr ≥ (mdOf (mapLoop pid
        (List.range' (addr.toNat / cfg.PAGE_SIZE)
          ((addr.toNat + len.toNat - 1) / cfg.PAGE_SIZE + 1 -
            addr.toNat / cfg.PAGE_SIZE)) k).1 pid).size) := by
      rw [hszeq]
      exact h2'
    have h3'' : ¬(addr + len > (mdOf (mapLoop pid
        (List.range' (addr.toNat / cfg.PAGE_SIZE)
          ((addr.toNat + len.toNat - 1) / cfg.PAGE_SIZE + 1 -
            addr.toNat / cfg.PAGE_SIZE)) k).1 pid).size) := by
      rw [hszeq]
      exact h3'
    rw [vm_read_eq_loop h1' h2'' h3'']
    have hbridge2 := readLoop_eq_mapLoop cfg pid (addr.toNat / cfg.PAGE_SIZE)
      ((addr.toNat + len.toNat - 1) / cfg.PAGE_SIZE)
      (addr.toNat % cfg.PAGE_SIZE) ((addr.toNat + len.toNat) % cfg.PAGE_SIZE)
      len.toNat
      (List.range' (addr.toNat / cfg.PAGE_SIZE)
        ((addr.toNat + len.toNat - 1) / cfg.PAGE_SIZE + 1 -
          addr.toNat / cfg.PAGE_SIZE))
      (mapLoop pid (List.range' (addr.toNat / cfg.PAGE_SIZE)
        ((addr.toNat + len.toNat - 1) / cfg.PAGE_SIZE + 1 -
          addr.toNat / cfg.PAGE_SIZE)) k).1 buf2 0
    rw [hbridge2.1]
    rw [mapLoop_nochange hsucc.2.2]

/-- Witness for C7: reading the unmapped two-page range `[0, 16)` of the
single process of `kW1` (reachable by one creation from the initial state)
succeeds. -/
theorem lazy_mapping_idempotent_witness :
    ∃ out, (vm_read cW kW1 0 0 16 (List.replicate 16 0)).2 = .ok out :=
  (lazy_mapping_idempotent (List.replicate 16 0)
    (Reachable.step Reachable.init (Step.create kW0 16))
    (by decide) (by decide) (by decide) (by decide)
    (by decide)).1
